import Mathlib

/-!
Verification of the `realtime_aggregator` core against its specification.

Shallow embedding of:
  * `app/cache.py`      — stale-while-revalidate cache primitives over Redis;
  * `app/services/fetcher.py` — per-source circuit breaker and batch fetcher;
  * `app/repositories/records.py` — checksum-based reconciliation (`upsert_source`);
  * `app/services/aggregator.py`  — the refresh orchestrator (`refresh_data`).

Modelling conventions, stated once:
  * Python `None` is modelled by `Option.none` where the source treats the slot
    as optional, and by the explicit value `PyVal.pynone` where the source can
    hand the object itself to callers (`json.loads` can return `None`).
  * Times are natural-number seconds from an arbitrary monotonic origin.
  * `sha256` of the canonically serialised payload is idealised as an injective
    encoding of the record.
  * The async layer is sequentialised: each coroutine's effect on the shared
    state is threaded explicitly, which is sound for the properties below since
    every mutation in the source is taken under a single lock.
-/

namespace RTA

/-! ## Python-level values and fetched records -/

/-- A value that travels through `json.dumps` / `json.loads`.  `pynone` is the
Python `None` object (JSON `null`); every other JSON value is abstracted by the
string of its canonical serialisation. -/
inductive PyVal where
  | pynone
  | pyval (s : String)
deriving DecidableEq, Repr

/-- One element of the list produced by `resp.json()` in `fetcher._fetch_one`:
either a JSON object (a Python `dict`) whose `id` member, when it is present,
is an integer (`models.DataRecord.external_id` is an `Integer` column), with
the rest of the object abstracted as `body`; or a non-dict JSON value. -/
inductive FetchRec where
  | obj (ext_id : Option Int) (body : String)
  | raw (body : String)
deriving DecidableEq, Repr

/-- Mirror of `r.get("id") if isinstance(r, dict) else None`
(`records.py`, line 42). -/
def FetchRec.extId : FetchRec → Option Int
  | .obj i _ => i
  | .raw _ => none

/-- The checksum column value: sha256 hexdigests of dict serialisations are
idealised as the injective image (`some`) of the canonical serialisation
itself, and the empty-string checksum assigned to non-dicts is `none` (no
dict's hexdigest is the empty string). -/
abbrev Checksum := Option (Option Int × String)

/-- Mirror of `self._checksum(r) if isinstance(r, dict) else ""`
(`records.py`, line 43): sha256 over the sorted-key JSON dump, idealised as an
injective encoding; non-dicts get the empty checksum. -/
def FetchRec.checksum : FetchRec → Checksum
  | .obj i b => some (i, b)
  | .raw _ => none

/-- Python truthiness of `r.get("id")`: `None` and `0` are falsy, every other
integer is truthy.  This is the test `if ext_id and ...` performs. -/
def truthyId : Option Int → Bool
  | none => false
  | some i => i != 0

/-! ## A tiny association-list layer

Both the `_circuit` dict of `fetcher.py` and the Redis keyspace of `cache.py`
are string-keyed maps; we model both with the same association list whose
lookup returns the first binding and whose update keeps keys unique. -/

def alookup {α : Type} (l : List (String × α)) (k : String) : Option α :=
  (l.find? (fun e => e.1 == k)).map (fun e => e.2)

def aset {α : Type} (l : List (String × α)) (k : String) (v : α) :
    List (String × α) :=
  (l.filter (fun e => !(e.1 == k))) ++ [(k, v)]

def adel {α : Type} (l : List (String × α)) (k : String) : List (String × α) :=
  l.filter (fun e => !(e.1 == k))

theorem alookup_nil {α : Type} (k : String) : alookup ([] : List (String × α)) k = none := rfl

theorem find?_append {α : Type} (p : α → Bool) (l l' : List α) :
    (l ++ l').find? p = ((l.find? p).or (l'.find? p)) := by
  induction l with
  | nil => simp
  | cons a as ih =>
      by_cases h : p a
      · simp [List.find?, h]
      · simp only [List.cons_append, List.find?, h]
        exact ih

theorem find?_filter_not {α : Type} (p : α → Bool) (l : List α) :
    (l.filter (fun a => !(p a))).find? p = none := by
  induction l with
  | nil => rfl
  | cons a as ih =>
      by_cases h : p a
      · simp [List.filter, h, ih]
      · simp [List.filter, h, List.find?, ih]

theorem alookup_aset_self {α : Type} (l : List (String × α)) (k : String) (v : α) :
    alookup (aset l k v) k = some v := by
  unfold alookup aset
  rw [find?_append, find?_filter_not (fun e => e.1 == k) l]
  simp [List.find?]

theorem alookup_aset_ne {α : Type} (l : List (String × α)) (k k' : String) (v : α)
    (h : k' ≠ k) : alookup (aset l k v) k' = alookup l k' := by
  have hkk' : (k == k') = false := by
    simp only [beq_eq_false_iff_ne, ne_eq]
    exact fun hc => h hc.symm
  unfold alookup aset
  rw [find?_append]
  have hfind : (l.filter (fun e => !(e.1 == k))).find? (fun e => e.1 == k') =
      l.find? (fun e => e.1 == k') := by
    induction l with
    | nil => rfl
    | cons a as ih =>
        cases hk : (a.1 == k) with
        | true =>
            have hk1 : a.1 = k := eq_of_beq hk
            have hk' : (a.1 == k') = false := by rw [hk1]; exact hkk'
            simp [List.filter, List.find?, hk, hk', ih]
        | false =>
            cases h2 : (a.1 == k') with
            | true => simp [List.filter, List.find?, hk, h2]
            | false => simp [List.filter, List.find?, hk, h2, ih]
  rw [hfind]
  have hone : ([(k, v)].find? (fun e => e.1 == k')) = none := by
    simp [List.find?, hkk']
  rw [hone, Option.or_none]

theorem alookup_adel_self {α : Type} (l : List (String × α)) (k : String) :
    alookup (adel l k) k = none := by
  unfold alookup adel
  rw [find?_filter_not (fun e => e.1 == k) l]
  rfl

/-! ## Circuit breaker (`fetcher.py`, lines 20–61)

`_circuit : dict[str, dict]` maps a URL to `{"failures": n, "opened_at": t}`.
All three operations run under `_circuit_lock`; we model them as pure state
transformers on the association list. -/

structure CircuitState where
  failures : Nat
  opened_at : Nat
deriving DecidableEq, Repr

abbrev Circuit := List (String × CircuitState)

def FAILURE_THRESHOLD : Nat := 3
def RECOVERY_SECONDS : Nat := 60

/-- Mirror of `_is_open` (`fetcher.py`, lines 26–36).  The half-open branch
mutates the stored failure count, so the query returns the new map as well.
`time.monotonic() - opened_at` is modelled with truncated subtraction, which
agrees with the source on every monotonic trace (`now ≥ opened_at`). -/
def is_open (c : Circuit) (url : String) (now : Nat) : Bool × Circuit :=
  match alookup c url with
  | none => (false, c)
  | some st =>
      if st.failures ≥ FAILURE_THRESHOLD then
        if now - st.opened_at < RECOVERY_SECONDS then (true, c)
        else (false, aset c url { st with failures := FAILURE_THRESHOLD - 1 })
      else (false, c)

/-- Mirror of `_record_failure` (`fetcher.py`, lines 39–45). -/
def record_failure (c : Circuit) (url : String) (now : Nat) : Circuit :=
  let st := (alookup c url).getD { failures := 0, opened_at := 0 }
  let st := { st with failures := st.failures + 1 }
  let st := if st.failures ≥ FAILURE_THRESHOLD then { st with opened_at := now } else st
  aset c url st

/-- Mirror of `_record_success` (`fetcher.py`, lines 48–50): `_circuit.pop(url, None)`. -/
def record_success (c : Circuit) (url : String) : Circuit :=
  adel c url

/-! ## SWR cache (`cache.py`, lines 48–141)

The Redis keyspace is a map from key to (stored value, absolute expiry); a key
is alive at `now` when `now < expiry` (`SETEX k ttl` expires the key `ttl`
seconds after the write).  Two failure modes are modelled: `available = false`
makes every Redis command raise `RedisError` (caught by the cache layer), and
`pool = false` makes `get_redis()` raise `CacheError("Redis pool not
initialized")`, which is *not* a `RedisError` (`exceptions.py` line 30) and so
escapes the `except RedisError` handlers. -/

structure RedisState where
  entries : List (String × PyVal × Nat)
  now : Nat
  available : Bool
  pool : Bool
deriving DecidableEq, Repr

def CACHE_STALE_GRACE : Nat := 60

/-- Redis `GET` / `EXISTS`: the stored value if the key is alive. -/
def rget (rs : RedisState) (k : String) : Option PyVal :=
  (alookup rs.entries k).bind (fun vn => if rs.now < vn.2 then some vn.1 else none)

/-- Redis `SETEX k ttl v`. -/
def rsetex (rs : RedisState) (k : String) (v : PyVal) (ttl : Nat) : RedisState :=
  { rs with entries := aset rs.entries k (v, rs.now + ttl) }

/-- Mirror of `cache_get` (`cache.py`, lines 80–99).  The `Except.error` case
is the uncaught `CacheError` from `get_redis()`; a `RedisError` is caught and
degrades to `(None, False)`.  The returned first component is exactly the
Python return value, so `pynone` covers both a miss and a cached JSON `null`. -/
def cache_get (rs : RedisState) (key : String) : Except String (PyVal × Bool) :=
  if !rs.pool then .error "Redis pool not initialized"
  else if !rs.available then .ok (.pynone, false)
  else
    match rget rs key with
    | none => .ok (.pynone, false)
    | some v => .ok (v, !(rget rs (key ++ ":fresh")).isSome)

/-- Mirror of `cache_set` (`cache.py`, lines 102–116): value under `key` with
expiry `ttl + CACHE_STALE_GRACE`, sentinel under `key ++ ":fresh"` with expiry
`ttl`. -/
def cache_set (rs : RedisState) (key : String) (v : PyVal) (ttl : Nat) :
    Except String RedisState :=
  if !rs.pool then .error "Redis pool not initialized"
  else if !rs.available then .ok rs
  else .ok (rsetex (rsetex rs key v (ttl + CACHE_STALE_GRACE)) (key ++ ":fresh") (.pyval "1") ttl)

/-- Mirror of `cache_delete` (`cache.py`, lines 119–124). -/
def cache_delete (rs : RedisState) (key : String) : Except String RedisState :=
  if !rs.pool then .error "Redis pool not initialized"
  else if !rs.available then .ok rs
  else .ok { rs with entries := adel (adel rs.entries key) (key ++ ":fresh") }

/-- Redis glob matching as used by `SCAN ... MATCH pattern`; only the `*`
wildcard occurs in this code base (`"agg:v2:*"`). -/
def globMatch : List Char → List Char → Bool
  | [], [] => true
  | [], _ :: _ => false
  | '*' :: ps, [] => globMatch ps []
  | '*' :: ps, c :: cs => globMatch ps (c :: cs) || globMatch ('*' :: ps) cs
  | p :: ps, [] => p == '?' && globMatch ps []
  | p :: ps, c :: cs => (p == c || p == '?') && globMatch ps cs
termination_by ps s => (ps.length, s.length)

/-- Mirror of `invalidate_pattern` (`cache.py`, lines 127–140): deletes every
live key matching the pattern, returning the count; a `RedisError` degrades to
`0` with no deletions. -/
def invalidate_pattern (rs : RedisState) (pattern : String) :
    Except String (Nat × RedisState) :=
  if !rs.pool then .error "Redis pool not initialized"
  else if !rs.available then .ok (0, rs)
  else
    let live := rs.entries.filter (fun e => rs.now < e.2.2)
    let hit := fun (k : String) => globMatch pattern.toList k.toList
    .ok ((live.filter (fun e => hit e.1)).length,
         { rs with entries := rs.entries.filter (fun e => !(rs.now < e.2.2 && hit e.1)) })

/-! ## Reconciliation (`repositories/records.py`, lines 23–77)

A `DataRecord` row.  The surrogate primary key `id` plays no role in any
claim, so rows are identified by their position in the store list, which also
models Python object identity inside one `upsert_source` call (the `existing`
dict holds live row objects; an in-loop update is visible to later reads). -/

structure Row where
  source_key : String
  source_url : String
  ext_id : Option Int
  payload : FetchRec
  checksum : Checksum
deriving DecidableEq, Repr

abbrev Store := List Row

/-- Index of the last list element satisfying `p`, or `none`.  The `existing`
dict of `upsert_source` is built by a comprehension in which a later row
overwrites an earlier one under the same `external_id` key, so a lookup hits
the last matching row of the enumeration. -/
def lastIdxWhere {α : Type} (p : α → Bool) : List α → Option Nat
  | [] => none
  | a :: as =>
      match lastIdxWhere p as with
      | some j => some (j + 1)
      | none => if p a then some 0 else none

/-- Accumulator of the `for r in records:` loop of `upsert_source`:
the live session rows, the running `changed` counter, and the pending
`to_insert` rows. -/
structure UpsertLoop where
  rows : Store
  changed : Nat
  toInsert : Store
deriving DecidableEq, Repr

/-- One iteration of the loop (`records.py`, lines 41–61).  `eIdxF` is the
snapshot `existing` dict, returning the position of the live row for an
external id; the row itself is read from (and written back to) the threaded
`acc.rows`, mirroring mutation of the shared row objects. -/
def upsertStep (sk url : String) (eIdxF : Option Int → Option Nat)
    (acc : UpsertLoop) (r : FetchRec) : UpsertLoop :=
  let ext := r.extId
  let cks := r.checksum
  let ins : UpsertLoop :=
    { acc with
      toInsert := acc.toInsert ++
        [{ source_key := sk, source_url := url, ext_id := ext,
           payload := r, checksum := cks }],
      changed := acc.changed + 1 }
  if truthyId ext then
    match eIdxF ext with
    | some j =>
        match acc.rows[j]? with
        | some row =>
            if row.checksum == cks then acc
            else
              { acc with
                rows := acc.rows.set j { row with payload := r, checksum := cks },
                changed := acc.changed + 1 }
        | none => acc
    | none => ins
  else ins

/-- The set comprehension `{r.get("id") for r in records if isinstance(r, dict)
and r.get("id")}` (`records.py`, line 66): the truthy external ids of the
fetched dicts. -/
def incomingIds (records : List FetchRec) : List (Option Int) :=
  records.filterMap (fun r =>
    match r with
    | .obj i _ => if truthyId i then some i else none
    | .raw _ => none)

/-- SQL semantics of `external_id IN (stale...)`: a row with a NULL
`external_id` never matches an `IN` list, and a NULL member of the list
matches nothing. -/
def sqlInMatch (ext : Option Int) (stale : List (Option Int)) : Bool :=
  match ext with
  | none => false
  | some v => stale.contains (some v)

/-- The snapshot `existing` dict of `upsert_source`: position of the live row
the dict holds for an external id (last enumerated row of the source wins). -/
def existIdx (store : Store) (sk : String) (e : Option Int) : Option Nat :=
  lastIdxWhere (fun row => row.source_key == sk && row.ext_id == e) store

/-- The state of the session after the `for r in records:` loop. -/
def upsertLoopRun (store : Store) (sk url : String) (records : List FetchRec) :
    UpsertLoop :=
  records.foldl (upsertStep sk url (existIdx store sk))
    { rows := store, changed := 0, toInsert := [] }

/-- `stale = [eid for eid in existing if eid not in incoming_ids]`
(`records.py`, line 67): the distinct external ids of the stored rows that do
not occur among the truthy fetched ids. -/
def staleKeysOf (store : Store) (sk : String) (records : List FetchRec) :
    List (Option Int) :=
  (((store.filter (fun row => row.source_key == sk)).map (fun row => row.ext_id)).dedup).filter
    (fun e => !((incomingIds records).contains e))

/-- Mirror of `RecordRepository.upsert_source` (`records.py`, lines 23–77).
Returns `((len(records), changed), new store)`.  The pending inserts are
appended after the stale-row delete, following the textual order of the
source (`add_all` flushes at the final `flush()`, the delete statement runs
before it); the unique index on `(source_key, external_id)` is not modelled. -/
def upsert_source (store : Store) (sk url : String) (records : List FetchRec) :
    (Nat × Nat) × Store :=
  let fin := upsertLoopRun store sk url records
  let afterDelete := fin.rows.filter (fun row =>
    !(row.source_key == sk && sqlInMatch row.ext_id (staleKeysOf store sk records)))
  ((records.length, fin.changed), afterDelete ++ fin.toInsert)

/-- The row `DataRecord(source_key=.., source_url=.., external_id=ext_id,
payload=r, checksum=checksum)` appended to `to_insert`. -/
def mkIns (sk url : String) (r : FetchRec) : Row :=
  { source_key := sk, source_url := url, ext_id := r.extId,
    payload := r, checksum := r.checksum }

/-! ## Fetch executor (`fetcher.py`, lines 64–113) -/

/-- One fetch outcome dict, as built in `_guarded`. -/
structure Outcome where
  url : String
  source_key : String
  records : List FetchRec
  duration_ms : Nat
  error : Option String
deriving DecidableEq, Repr

/-- Mirror of `url.rstrip("/").rsplit("/", 1)[-1]`: the last path segment. -/
def sourceKeyOf (url : String) : String :=
  let s := url.dropRightWhile (fun c => c == '/')
  ((s.splitOn "/").getLast?).getD s

/-- The network, abstracting `_fetch_one` together with its tenacity retry
loop: for a URL it yields either the normalised record list and the elapsed
milliseconds, or the message of the terminal exception. -/
def Upstream : Type := String → Except String (List FetchRec × Nat)

/-- Mirror of the `_guarded` closure of `fetch_sources` (`fetcher.py`, lines
84–109), also counting the network calls made (0 or 1) so that the
short-circuit behaviour is observable. -/
def guardedFetch (up : Upstream) (now : Nat) (c : Circuit) (url : String) :
    Outcome × Circuit × Nat :=
  let sk := sourceKeyOf url
  let p := is_open c url now
  if p.1 then
    ({ url := url, source_key := sk, records := [], duration_ms := 0,
       error := some "Circuit open — upstream unavailable" }, p.2, 0)
  else
    match up url with
    | .ok (records, ms) =>
        ({ url := url, source_key := sk, records := records, duration_ms := ms,
           error := none }, record_success p.2 url, 1)
    | .error e =>
        ({ url := url, source_key := sk, records := [], duration_ms := 0,
           error := some e }, record_failure p.2 url now, 1)

/-- One task of the `asyncio.gather`: append its outcome, thread the breaker
map, and add its network-call count. -/
def fetchStep (up : Upstream) (now : Nat) (acc : List Outcome × Circuit × Nat)
    (url : String) : List Outcome × Circuit × Nat :=
  let g := guardedFetch up now acc.2.1 url
  (acc.1 ++ [g.1], g.2.1, acc.2.2 + g.2.2)

/-- Mirror of `fetch_sources` (`fetcher.py`, lines 81–113).  `asyncio.gather`
preserves input order; the breaker mutations of the concurrent tasks are
serialised by `_circuit_lock` and are threaded here in input order. -/
def fetch_sources (up : Upstream) (now : Nat) (c : Circuit) (urls : List String) :
    List Outcome × Circuit × Nat :=
  urls.foldl (fetchStep up now) ([], c, 0)

/-! ## Refresh orchestrator (`services/aggregator.py`, lines 21–66) -/

/-- One `FetchAudit` row as written by `AuditRepository.log`. -/
structure Audit where
  source_url : String
  source_key : String
  status : String
  records_fetched : Nat
  records_changed : Nat
  duration_ms : Option Nat
  error_detail : Option String
  triggered_by : String
deriving DecidableEq, Repr

/-- The `RefreshResponse` summary schema. -/
structure RefreshResponse where
  message : String
  sources_refreshed : Nat
  records_upserted : Nat
  records_changed : Nat
  errors : List String
deriving DecidableEq, Repr

/-- Python truthiness of `result["error"]`: `None` and the empty string are
falsy. -/
def errTruthy : Option String → Bool
  | none => false
  | some s => s ≠ ""

/-- Accumulator of the `for result in raw_results:` loop of `refresh_data`. -/
structure RefreshAcc where
  db : Store
  total_upserted : Nat
  total_changed : Nat
  errors : List String
  audits : List Audit
deriving Repr

/-- One iteration of the orchestrator loop (`aggregator.py`, lines 29–54). -/
def refreshStep (tb : String) (acc : RefreshAcc) (res : Outcome) : RefreshAcc :=
  if errTruthy res.error then
    { acc with
      errors := acc.errors ++ [res.source_key ++ ": " ++ res.error.getD ""],
      audits := acc.audits ++
        [{ source_url := res.url, source_key := res.source_key, status := "error",
           records_fetched := 0, records_changed := 0, duration_ms := none,
           error_detail := res.error, triggered_by := tb }] }
  else
    let u := upsert_source acc.db res.source_key res.url res.records
    { db := u.2,
      total_upserted := acc.total_upserted + u.1.1,
      total_changed := acc.total_changed + u.1.2,
      errors := acc.errors,
      audits := acc.audits ++
        [{ source_url := res.url, source_key := res.source_key, status := "ok",
           records_fetched := u.1.1, records_changed := u.1.2,
           duration_ms := some res.duration_ms, error_detail := none,
           triggered_by := tb }] }

/-- Mirror of `refresh_data` (`aggregator.py`, lines 21–66), parametrised by
the fetch outcomes (`raw_results`) and the stored rows.  Returns the summary,
the committed store, and the audit rows written in this pass; the final cache
invalidation touches only Redis and is modelled separately by
`invalidate_pattern`. -/
def refresh_data (outcomes : List Outcome) (store : Store) (tb : String) :
    RefreshResponse × Store × List Audit :=
  let fin := outcomes.foldl (refreshStep tb)
    { db := store, total_upserted := 0, total_changed := 0, errors := [], audits := [] }
  ({ message := "Refresh complete",
     sources_refreshed := (outcomes.filter (fun r => !(errTruthy r.error))).length,
     records_upserted := fin.total_upserted,
     records_changed := fin.total_changed,
     errors := fin.errors }, fin.db, fin.audits)

/-- A well-behaved upstream payload: every record is a dict carrying a truthy
(non-null, non-zero) `id`, and the ids within the response are pairwise
distinct.  Under these conditions reconciliation is idempotent. -/
def GoodRecs (records : List FetchRec) : Prop :=
  (∀ r ∈ records, truthyId r.extId = true) ∧ (records.map FetchRec.extId).Nodup

instance (records : List FetchRec) : Decidable (GoodRecs records) := by
  unfold GoodRecs
  infer_instance

/-- The store is in sync with a source's latest good payload: for every
fetched record the last stored row under `(source key, its external id)`
carries exactly the record's checksum, and every stored row of the source
with a non-null external id is covered by the payload's incoming ids. -/
def SyncedSrc (s : Store) (sk : String) (records : List FetchRec) : Prop :=
  (∀ r ∈ records,
     ((s.filter (fun row => row.source_key == sk && row.ext_id == r.extId)).getLast?).map
        Row.checksum = some r.checksum) ∧
  (∀ row ∈ s, row.source_key = sk → ∀ v : Int, row.ext_id = some v →
     (incomingIds records).contains (some v) = true)

/-- A single well-behaved successful outcome; used only to instantiate
claim C7. -/
def oneGoodOutcome : Outcome :=
  ⟨"https://x/posts", "posts", [FetchRec.obj (some 1) "t"], 7, none⟩

/-- A concrete three-source batch with exactly one erroring fetch, the
spec's partial-failure scenario; used only to instantiate claim C1. -/
def threeSourceBatch : List Outcome :=
  [⟨"https://x/posts", "posts", [FetchRec.obj (some 1) "t"], 7, none⟩,
   ⟨"https://x/users", "users", [], 3, none⟩,
   ⟨"https://x/todos", "todos", [], 0, some "boom"⟩]

/-! ## Generic helper lemmas -/

theorem contains_iff_mem {α : Type} [BEq α] [LawfulBEq α] (l : List α) (a : α) :
    l.contains a = true ↔ a ∈ l := List.elem_iff

theorem key_ne_fresh (k : String) : (k ++ ":fresh") ≠ k := by
  intro h
  have h2 := congrArg String.length h
  rw [String.length_append] at h2
  have h3 : (":fresh" : String).length = 6 := rfl
  omega

theorem foldl_id {α β : Type} (f : α → β → α) (a : α) (l : List β)
    (h : ∀ b ∈ l, f a b = a) : l.foldl f a = a := by
  induction l with
  | nil => rfl
  | cons b bs ih =>
      have hb : f a b = a := h b (List.mem_cons_self b bs)
      simp only [List.foldl_cons, hb]
      exact ih (fun x hx => h x (List.mem_cons_of_mem b hx))

/-! ## Claim C2 — SWR cache freshness arithmetic -/

theorem rget_mk (entries : List (String × PyVal × Nat)) (n : Nat) (a p : Bool) (k : String) :
    rget { entries := entries, now := n, available := a, pool := p } k =
      (alookup entries k).bind (fun vn => if n < vn.2 then some vn.1 else none) := rfl

theorem cache_get_live (entries : List (String × PyVal × Nat)) (n : Nat) (k : String) :
    cache_get { entries := entries, now := n, available := true, pool := true } k =
      match rget { entries := entries, now := n, available := true, pool := true } k with
      | none => .ok (.pynone, false)
      | some v =>
          .ok (v, !(rget { entries := entries, now := n, available := true, pool := true }
                      (k ++ ":fresh")).isSome) := rfl

/-- C2: `cache_set k v ttl` writes the value with expiry `ttl +
CACHE_STALE_GRACE` and the freshness sentinel with expiry `ttl`; a
`cache_get` less than `ttl` later returns `(v, stale := false)`, between
`ttl` and `ttl + grace` it returns `(v, stale := true)`, and from
`ttl + grace` on it returns `(absent, false)` — sentinel present means
fresh, value present without sentinel means stale, neither means miss. -/
theorem claim_C2 (entries : List (String × PyVal × Nat)) (t0 : Nat)
    (k : String) (v : PyVal) (ttl d : Nat) :
    ∃ rs1 : RedisState,
      cache_set { entries := entries, now := t0, available := true, pool := true } k v ttl =
        .ok rs1 ∧
      ((d < ttl →
          cache_get { rs1 with now := t0 + d } k = .ok (v, false)) ∧
       (ttl ≤ d → d < ttl + CACHE_STALE_GRACE →
          cache_get { rs1 with now := t0 + d } k = .ok (v, true)) ∧
       (ttl + CACHE_STALE_GRACE ≤ d →
          cache_get { rs1 with now := t0 + d } k = .ok (.pynone, false))) := by
  have hg : CACHE_STALE_GRACE = 60 := rfl
  have hv : rget { entries := aset (aset entries k (v, t0 + (ttl + CACHE_STALE_GRACE))) (k ++ ":fresh") (PyVal.pyval "1", t0 + ttl), now := t0 + d, available := true, pool := true } k =
      (if t0 + d < t0 + (ttl + CACHE_STALE_GRACE) then some v else none) := by
    rw [rget_mk, alookup_aset_ne _ _ _ _ (fun h => key_ne_fresh k h.symm),
      alookup_aset_self, Option.some_bind]
  have hf : rget { entries := aset (aset entries k (v, t0 + (ttl + CACHE_STALE_GRACE))) (k ++ ":fresh") (PyVal.pyval "1", t0 + ttl), now := t0 + d, available := true, pool := true } (k ++ ":fresh") =
      (if t0 + d < t0 + ttl then some (PyVal.pyval "1") else none) := by
    rw [rget_mk, alookup_aset_self, Option.some_bind]
  refine ⟨_, rfl, ?_, ?_, ?_⟩
  all_goals
    intro hd
  on_goal 2 => intro hd2
  all_goals
    show cache_get { entries := aset (aset entries k (v, t0 + (ttl + CACHE_STALE_GRACE))) (k ++ ":fresh") (PyVal.pyval "1", t0 + ttl), now := t0 + d, available := true, pool := true } k = _
    rw [cache_get_live]
  · -- fresh window: the value key and the sentinel are both alive
    rw [hv, if_pos (by rw [hg]; omega), hf, if_pos (by omega)]
    rfl
  · -- stale window: value alive, sentinel expired
    rw [hv, if_pos (by rw [hg] at hd2 ⊢; omega), hf, if_neg (by omega)]
    rfl
  · -- expired: the value key itself is gone
    rw [hv, if_neg (by rw [hg] at hd ⊢; omega)]

theorem claim_C2_witness :
    (0 : Nat) < 30 ∧
    ∃ rs1 : RedisState,
      cache_set { entries := [], now := 0, available := true, pool := true } "k"
          (PyVal.pyval "V") 30 = .ok rs1 ∧
      ((0 < 30 → cache_get { rs1 with now := 0 + 0 } "k" = .ok (PyVal.pyval "V", false)) ∧
       (30 ≤ 0 → 0 < 30 + CACHE_STALE_GRACE →
          cache_get { rs1 with now := 0 + 0 } "k" = .ok (PyVal.pyval "V", true)) ∧
       (30 + CACHE_STALE_GRACE ≤ 0 →
          cache_get { rs1 with now := 0 + 0 } "k" = .ok (.pynone, false))) :=
  ⟨by decide, claim_C2 [] 0 "k" (PyVal.pyval "V") 30 0⟩

/-! ## Claim C4 — breaker opens at the threshold, success fully resets -/

/-- C4: from a clean state, exactly `FAILURE_THRESHOLD = 3` consecutive
`_record_failure` calls make `_is_open` report open while less than
`RECOVERY_SECONDS` have passed since the third failure; and a single
`_record_success`, from any state whatsoever, removes the whole entry so
`_is_open` reports closed. -/
theorem claim_C4 (url : String) (t1 t2 t3 now : Nat) (c : Circuit) (now' : Nat)
    (h : now - t3 < RECOVERY_SECONDS) :
    (is_open (record_failure (record_failure (record_failure [] url t1) url t2) url t3)
       url now).1 = true ∧
    (is_open (record_success c url) url now').1 = false := by
  constructor
  · have h1 : record_failure [] url t1 = aset [] url ⟨1, 0⟩ := rfl
    have h2 : record_failure (aset [] url ⟨1, 0⟩) url t2 = aset (aset [] url ⟨1, 0⟩) url ⟨2, 0⟩ := by
      unfold record_failure
      rw [alookup_aset_self]
      rfl
    have h3 : record_failure (aset (aset [] url ⟨1, 0⟩) url ⟨2, 0⟩) url t3 =
        aset (aset (aset [] url ⟨1, 0⟩) url ⟨2, 0⟩) url ⟨3, t3⟩ := by
      unfold record_failure
      rw [alookup_aset_self]
      rfl
    rw [h1, h2, h3]
    unfold is_open
    rw [alookup_aset_self]
    simp only [FAILURE_THRESHOLD, ge_iff_le, le_refl, if_true, if_pos h]
  · unfold is_open record_success
    rw [alookup_adel_self]

theorem claim_C4_witness :
    (0 : Nat) - 0 < RECOVERY_SECONDS ∧
    ((is_open (record_failure (record_failure (record_failure [] "u" 0) "u" 0) "u" 0)
        "u" 0).1 = true ∧
     (is_open (record_success [("u", ⟨1, 0⟩)] "u") "u" 0).1 = false) :=
  ⟨by decide, claim_C4 "u" 0 0 0 0 [("u", ⟨1, 0⟩)] 0 (by decide)⟩

/-! ## Claim C5 — half-open probe accounting

The claim says that after the recovery window only one `isOpen` check
reports closed and a second check, made before any new outcome is recorded,
re-evaluates as open.  In the code the half-open branch rewrites the failure
count to `FAILURE_THRESHOLD - 1`, after which *every* further check reports
closed until some outcome is recorded. -/

theorem claim_C5_counterexample :
    (is_open (record_failure (record_failure (record_failure [] "u" 0) "u" 0) "u" 0)
       "u" 60).1 = false ∧
    ((is_open ((is_open (record_failure (record_failure (record_failure [] "u" 0) "u" 0) "u" 0)
         "u" 60).2) "u" 60).1 = false) := by decide

/-- C5 (amended): once the recovery window has elapsed for an open breaker,
`_is_open` reports closed and rewrites the failure count to
`FAILURE_THRESHOLD - 1`; a further check before any recorded outcome *also*
reports closed (rather than re-evaluating as open); the breaker re-opens
only after another `_record_failure`, which restores the count to the
threshold and restarts the window. -/
theorem claim_C5_amended (url : String) (c : Circuit) (now : Nat) (st : CircuitState)
    (hs : alookup c url = some st) (hf : st.failures ≥ FAILURE_THRESHOLD)
    (hw : ¬(now - st.opened_at < RECOVERY_SECONDS)) :
    (is_open c url now).1 = false ∧
    alookup (is_open c url now).2 url = some { st with failures := FAILURE_THRESHOLD - 1 } ∧
    (is_open (is_open c url now).2 url now).1 = false ∧
    (is_open (record_failure (is_open c url now).2 url now) url now).1 = true := by
  have hp : is_open c url now =
      (false, aset c url { st with failures := FAILURE_THRESHOLD - 1 }) := by
    unfold is_open
    rw [hs]
    simp only [ge_iff_le, hf, if_pos, if_neg hw]
  refine ⟨by rw [hp], by rw [hp]; exact alookup_aset_self c url _, ?_, ?_⟩
  · rw [hp]
    unfold is_open
    rw [alookup_aset_self]
    simp [FAILURE_THRESHOLD]
  · rw [hp]
    have hrf : record_failure (aset c url { st with failures := FAILURE_THRESHOLD - 1 }) url now =
        aset (aset c url { st with failures := FAILURE_THRESHOLD - 1 }) url
          ⟨FAILURE_THRESHOLD, now⟩ := by
      unfold record_failure
      rw [alookup_aset_self]
      rfl
    rw [hrf]
    unfold is_open
    rw [alookup_aset_self]
    simp [FAILURE_THRESHOLD, RECOVERY_SECONDS]

theorem claim_C5_witness :
    alookup [("u", (⟨3, 0⟩ : CircuitState))] "u" = some ⟨3, 0⟩ ∧
    (⟨3, 0⟩ : CircuitState).failures ≥ FAILURE_THRESHOLD ∧
    ¬((60 : Nat) - (⟨3, 0⟩ : CircuitState).opened_at < RECOVERY_SECONDS) ∧
    ((is_open [("u", (⟨3, 0⟩ : CircuitState))] "u" 60).1 = false ∧
     alookup (is_open [("u", (⟨3, 0⟩ : CircuitState))] "u" 60).2 "u" =
       some { (⟨3, 0⟩ : CircuitState) with failures := FAILURE_THRESHOLD - 1 } ∧
     (is_open (is_open [("u", (⟨3, 0⟩ : CircuitState))] "u" 60).2 "u" 60).1 = false ∧
     (is_open (record_failure (is_open [("u", (⟨3, 0⟩ : CircuitState))] "u" 60).2 "u" 60)
        "u" 60).1 = true) :=
  ⟨by decide, by decide, by decide,
   claim_C5_amended "u" [("u", ⟨3, 0⟩)] 60 ⟨3, 0⟩ (by decide) (by decide) (by decide)⟩

/-! ## Claim C8 — the reconciliation example -/

/-- C8: with stored rows `{1 ↦ "A", 2 ↦ "B"}` and a fetch of
`[{id 1, "A"}, {id 3, "C"}]`, `upsert_source` inserts the id-3 row, deletes
the id-2 row, leaves the id-1 row byte-identical (equal checksum), and
returns `changed = 1` — the deletion is not counted. -/
theorem claim_C8 :
    upsert_source
      [{ source_key := "posts", source_url := "u", ext_id := some 1,
         payload := FetchRec.obj (some 1) "A",
         checksum := (FetchRec.obj (some 1) "A").checksum },
       { source_key := "posts", source_url := "u", ext_id := some 2,
         payload := FetchRec.obj (some 2) "B",
         checksum := (FetchRec.obj (some 2) "B").checksum }]
      "posts" "u"
      [FetchRec.obj (some 1) "A", FetchRec.obj (some 3) "C"] =
    ((2, 1),
     [{ source_key := "posts", source_url := "u", ext_id := some 1,
        payload := FetchRec.obj (some 1) "A",
        checksum := (FetchRec.obj (some 1) "A").checksum },
      { source_key := "posts", source_url := "u", ext_id := some 3,
        payload := FetchRec.obj (some 3) "C",
        checksum := (FetchRec.obj (some 3) "C").checksum }]) := by decide

/-! ## Claim C9 — degradation when the backing store is unavailable

`cache.py` catches only `RedisError`; the `CacheError` raised by
`get_redis()` when the pool was never initialised is an `AppError`
(`exceptions.py`), not a `RedisError`, so it escapes every cache operation. -/

theorem claim_C9_counterexample :
    cache_get { entries := [], now := 0, available := true, pool := false } "k" =
      .error "Redis pool not initialized" ∧
    cache_set { entries := [], now := 0, available := true, pool := false } "k"
        (PyVal.pyval "v") 30 = .error "Redis pool not initialized" := by
  exact ⟨rfl, rfl⟩

/-- C9 (amended): when the backing store raises `RedisError` on every
command, the operations degrade — `cache_get` to a miss `(absent, false)`,
`cache_set` and `cache_delete` to no-ops, `invalidate_pattern` to `0` — but
with an uninitialised connection pool every operation propagates the
`CacheError` raised by `get_redis()`. -/
theorem claim_C9_amended (entries : List (String × PyVal × Nat)) (now : Nat)
    (k : String) (v : PyVal) (ttl : Nat) (pat : String) (avail : Bool) :
    (cache_get { entries := entries, now := now, available := false, pool := true } k =
        .ok (.pynone, false) ∧
     cache_set { entries := entries, now := now, available := false, pool := true } k v ttl =
        .ok { entries := entries, now := now, available := false, pool := true } ∧
     cache_delete { entries := entries, now := now, available := false, pool := true } k =
        .ok { entries := entries, now := now, available := false, pool := true } ∧
     invalidate_pattern { entries := entries, now := now, available := false, pool := true } pat =
        .ok (0, { entries := entries, now := now, available := false, pool := true })) ∧
    (cache_get { entries := entries, now := now, available := avail, pool := false } k =
        .error "Redis pool not initialized" ∧
     cache_set { entries := entries, now := now, available := avail, pool := false } k v ttl =
        .error "Redis pool not initialized" ∧
     cache_delete { entries := entries, now := now, available := avail, pool := false } k =
        .error "Redis pool not initialized" ∧
     invalidate_pattern { entries := entries, now := now, available := avail, pool := false } pat =
        .error "Redis pool not initialized") :=
  ⟨⟨rfl, rfl, rfl, rfl⟩, ⟨rfl, rfl, rfl, rfl⟩⟩

/-! ## Claim C10 — no stale miss

`json.loads` maps the stored string `"null"` to Python `None`, which is the
very value `cache_get` uses to signal a miss; a cached `None` whose sentinel
has expired therefore comes back as `(None, True)` — a stale miss.  The
state below is reachable: `cache_set k None 30` followed by a read 30
seconds later. -/

theorem claim_C10_counterexample :
    cache_set { entries := [], now := 0, available := true, pool := true } "k"
        PyVal.pynone 30 =
      .ok { entries := [("k", PyVal.pynone, 90), ("k:fresh", PyVal.pyval "1", 30)],
            now := 0, available := true, pool := true } ∧
    cache_get { entries := [("k", PyVal.pynone, 90), ("k:fresh", PyVal.pyval "1", 30)],
                now := 30, available := true, pool := true } "k" =
      .ok (PyVal.pynone, true) := by
  exact ⟨rfl, rfl⟩

/-- C10 (amended): `cache_get` reports `stale = true` only when the value
key is live, and then returns exactly the stored value; so an absent
(`None`) result can carry `stale = true` only when the stored value is
itself the JSON `null`. -/
theorem claim_C10_amended (rs : RedisState) (k : String) (val : PyVal) (st : Bool)
    (h : cache_get rs k = .ok (val, st)) :
    (st = true → rget rs k = some val) ∧
    (val = .pynone → st = true → rget rs k = some PyVal.pynone) := by
  unfold cache_get at h
  by_cases hp : rs.pool
  · by_cases ha : rs.available
    · rw [if_neg (by simp [hp]), if_neg (by simp [ha])] at h
      cases hv : rget rs k with
      | none =>
          rw [hv] at h
          have hok := Except.ok.inj h
          have hst : st = false := (Prod.mk.injEq _ _ _ _ ▸ hok).2.symm
          refine ⟨fun hc => absurd (hst ▸ hc) (by simp), fun _ hc => absurd (hst ▸ hc) (by simp)⟩
      | some v =>
          rw [hv] at h
          have hok := Except.ok.inj h
          have hval : val = v := ((Prod.mk.injEq _ _ _ _).mp hok.symm).1
          refine ⟨fun _ => ?_, fun hn _ => ?_⟩
          · rw [← hval]
          · rw [← hval, hn]
    · rw [if_neg (by simp [hp]), if_pos (by simp [ha])] at h
      have hok := Except.ok.inj h
      have hst : st = false := ((Prod.mk.injEq _ _ _ _).mp hok.symm).2
      refine ⟨fun hc => absurd (hst ▸ hc) (by simp), fun _ hc => absurd (hst ▸ hc) (by simp)⟩
  · rw [if_pos (by simp [hp])] at h
    exact absurd h (by simp)

/-! ## Lemmas about `lastIdxWhere` (the snapshot `existing` dict) -/

theorem lastIdxWhere_some {α : Type} (p : α → Bool) (l : List α) (j : Nat)
    (h : lastIdxWhere p l = some j) : ∃ a, l[j]? = some a ∧ p a = true := by
  induction l generalizing j with
  | nil => exact absurd h (by simp [lastIdxWhere])
  | cons a as ih =>
      unfold lastIdxWhere at h
      cases hr : lastIdxWhere p as with
      | some j' =>
          rw [hr] at h
          have hj : j = j' + 1 := (Option.some.inj h).symm
          subst hj
          obtain ⟨b, hb, hpb⟩ := ih j' hr
          exact ⟨b, by rw [List.getElem?_cons_succ]; exact hb, hpb⟩
      | none =>
          rw [hr] at h
          by_cases hp : p a
          · rw [if_pos hp] at h
            have hj : j = 0 := (Option.some.inj h).symm
            subst hj
            exact ⟨a, by simp, hp⟩
          · rw [if_neg hp] at h
            exact absurd h (by simp)

theorem lastIdxWhere_none_iff {α : Type} (p : α → Bool) (l : List α) :
    lastIdxWhere p l = none ↔ ∀ a ∈ l, p a = false := by
  induction l with
  | nil => simp [lastIdxWhere]
  | cons a as ih =>
      unfold lastIdxWhere
      cases hr : lastIdxWhere p as with
      | some j' =>
          simp only [List.mem_cons]
          constructor
          · intro h; exact absurd h (by simp)
          · intro h
            obtain ⟨b, hb, hpb⟩ := lastIdxWhere_some p as j' hr
            have : p b = false := h b (Or.inr (List.getElem?_mem hb))
            rw [this] at hpb
            exact absurd hpb (by simp)
      | none =>
          have has : ∀ b ∈ as, p b = false := ih.mp hr
          by_cases hp : p a
          · rw [if_pos hp]
            simp only [List.mem_cons]
            constructor
            · intro h; exact absurd h (by simp)
            · intro h
              have := h a (Or.inl rfl)
              rw [this] at hp
              exact absurd hp (by simp)
          · rw [if_neg hp]
            simp only [List.mem_cons, true_iff]
            intro b hb
            rcases hb with hb | hb
            · subst hb
              exact Bool.eq_false_iff.mpr hp
            · exact has b hb

theorem lastIdxWhere_getLast {α : Type} (p : α → Bool) (l : List α) (j : Nat) (a : α)
    (h : lastIdxWhere p l = some j) (ha : l[j]? = some a) :
    (l.filter p).getLast? = some a := by
  induction l generalizing j with
  | nil => exact absurd h (by simp [lastIdxWhere])
  | cons b bs ih =>
      unfold lastIdxWhere at h
      cases hr : lastIdxWhere p bs with
      | some j' =>
          rw [hr] at h
          have hj : j = j' + 1 := (Option.some.inj h).symm
          subst hj
          rw [List.getElem?_cons_succ] at ha
          have htail := ih j' hr ha
          rw [List.filter_cons]
          by_cases hp : p b
          · rw [if_pos hp]
            cases hfb : bs.filter p with
            | nil => rw [hfb] at htail; exact absurd htail (by simp)
            | cons c cs => rw [hfb] at htail; rw [List.getLast?_cons_cons]; exact htail
          · rw [if_neg hp]
            exact htail
      | none =>
          rw [hr] at h
          by_cases hp : p b
          · rw [if_pos hp] at h
            have hj : j = 0 := (Option.some.inj h).symm
            subst hj
            rw [List.getElem?_cons_zero] at ha
            have hab : a = b := (Option.some.inj ha).symm
            subst hab
            have hnil : bs.filter p = [] := by
              rw [List.filter_eq_nil_iff]
              intro c hc
              have := (lastIdxWhere_none_iff p bs).mp hr c hc
              simp [this]
            rw [List.filter_cons, if_pos hp, hnil]
            rfl
          · rw [if_neg hp] at h
            exact absurd h (by simp)

/-! ## Structural lemmas about the `upsert_source` loop

The nested conditionals of `upsertStep` are first characterised case by case;
every later lemma about the loop reasons through these three equations. -/

theorem upsertStep_insert (sk url : String) (eIdxF : Option Int → Option Nat)
    (acc : UpsertLoop) (r : FetchRec)
    (h : truthyId r.extId = false ∨ eIdxF r.extId = none) :
    upsertStep sk url eIdxF acc r =
      { acc with toInsert := acc.toInsert ++ [mkIns sk url r],
                 changed := acc.changed + 1 } := by
  rcases h with h | h
  · simp [upsertStep, h, mkIns]
  · by_cases ht : truthyId r.extId
    · simp [upsertStep, ht, h, mkIns]
    · simp [upsertStep, ht, mkIns]

theorem upsertStep_found (sk url : String) (eIdxF : Option Int → Option Nat)
    (acc : UpsertLoop) (r : FetchRec) (j0 : Nat) (row : Row)
    (ht : truthyId r.extId = true) (he : eIdxF r.extId = some j0)
    (hrow : acc.rows[j0]? = some row) :
    upsertStep sk url eIdxF acc r =
      (if row.checksum == r.checksum then acc
       else { acc with
              rows := acc.rows.set j0 { row with payload := r, checksum := r.checksum },
              changed := acc.changed + 1 }) := by
  simp [upsertStep, ht, he, hrow]

theorem upsertStep_found_none (sk url : String) (eIdxF : Option Int → Option Nat)
    (acc : UpsertLoop) (r : FetchRec) (j0 : Nat)
    (ht : truthyId r.extId = true) (he : eIdxF r.extId = some j0)
    (hrow : acc.rows[j0]? = none) :
    upsertStep sk url eIdxF acc r = acc := by
  simp [upsertStep, ht, he, hrow]

theorem upsertStep_skeleton (sk url : String) (eIdxF : Option Int → Option Nat)
    (acc : UpsertLoop) (r : FetchRec) (j : Nat) :
    (((upsertStep sk url eIdxF acc r).rows[j]?).map (fun row => (row.source_key, row.ext_id))) =
      ((acc.rows[j]?).map (fun row => (row.source_key, row.ext_id))) := by
  by_cases ht : truthyId r.extId = true
  · cases he : eIdxF r.extId with
    | none => rw [upsertStep_insert sk url eIdxF acc r (Or.inr he)]
    | some j0 =>
        cases hrow : acc.rows[j0]? with
        | none => rw [upsertStep_found_none sk url eIdxF acc r j0 ht he hrow]
        | some row =>
            rw [upsertStep_found sk url eIdxF acc r j0 row ht he hrow]
            by_cases hc : row.checksum == r.checksum
            · rw [if_pos hc]
            · rw [if_neg hc]
              show ((acc.rows.set j0 _)[j]?).map _ = _
              rw [List.getElem?_set]
              by_cases hj : j0 = j
              · subst hj
                rcases List.getElem?_eq_some_iff.mp hrow with ⟨hlt, _⟩
                rw [if_pos rfl, if_pos hlt, hrow]
                rfl
              · rw [if_neg hj]
  · rw [upsertStep_insert sk url eIdxF acc r
      (Or.inl (Bool.eq_false_iff.mpr ht))]

theorem upsert_fold_skeleton (sk url : String) (eIdxF : Option Int → Option Nat)
    (records : List FetchRec) (acc : UpsertLoop) (j : Nat) :
    (((records.foldl (upsertStep sk url eIdxF) acc).rows[j]?).map
        (fun row => (row.source_key, row.ext_id))) =
      ((acc.rows[j]?).map (fun row => (row.source_key, row.ext_id))) := by
  induction records generalizing acc with
  | nil => rfl
  | cons r rs ih =>
      rw [List.foldl_cons, ih]
      exact upsertStep_skeleton sk url eIdxF acc r j

theorem upsertStep_length (sk url : String) (eIdxF : Option Int → Option Nat)
    (acc : UpsertLoop) (r : FetchRec) :
    (upsertStep sk url eIdxF acc r).rows.length = acc.rows.length := by
  by_cases ht : truthyId r.extId = true
  · cases he : eIdxF r.extId with
    | none => rw [upsertStep_insert sk url eIdxF acc r (Or.inr he)]
    | some j0 =>
        cases hrow : acc.rows[j0]? with
        | none => rw [upsertStep_found_none sk url eIdxF acc r j0 ht he hrow]
        | some row =>
            rw [upsertStep_found sk url eIdxF acc r j0 row ht he hrow]
            by_cases hc : row.checksum == r.checksum
            · rw [if_pos hc]
            · rw [if_neg hc]
              show (acc.rows.set j0 _).length = _
              rw [List.length_set]
  · rw [upsertStep_insert sk url eIdxF acc r (Or.inl (Bool.eq_false_iff.mpr ht))]

theorem upsert_fold_length (sk url : String) (eIdxF : Option Int → Option Nat)
    (records : List FetchRec) (acc : UpsertLoop) :
    (records.foldl (upsertStep sk url eIdxF) acc).rows.length = acc.rows.length := by
  induction records generalizing acc with
  | nil => rfl
  | cons r rs ih =>
      rw [List.foldl_cons, ih]
      exact upsertStep_length sk url eIdxF acc r

theorem upsertStep_untouched (sk url : String) (eIdxF : Option Int → Option Nat)
    (acc : UpsertLoop) (r : FetchRec) (j : Nat)
    (h : truthyId r.extId = true → eIdxF r.extId ≠ some j) :
    (upsertStep sk url eIdxF acc r).rows[j]? = acc.rows[j]? := by
  by_cases ht : truthyId r.extId = true
  · cases he : eIdxF r.extId with
    | none => rw [upsertStep_insert sk url eIdxF acc r (Or.inr he)]
    | some j0 =>
        cases hrow : acc.rows[j0]? with
        | none => rw [upsertStep_found_none sk url eIdxF acc r j0 ht he hrow]
        | some row =>
            rw [upsertStep_found sk url eIdxF acc r j0 row ht he hrow]
            by_cases hc : row.checksum == r.checksum
            · rw [if_pos hc]
            · rw [if_neg hc]
              show (acc.rows.set j0 _)[j]? = _
              have hj : j0 ≠ j := fun hj => (h ht) (hj ▸ he)
              rw [List.getElem?_set, if_neg hj]
  · rw [upsertStep_insert sk url eIdxF acc r
      (Or.inl (Bool.eq_false_iff.mpr ht))]

theorem upsert_fold_untouched (sk url : String) (eIdxF : Option Int → Option Nat)
    (records : List FetchRec) (acc : UpsertLoop) (j : Nat)
    (h : ∀ r ∈ records, truthyId r.extId = true → eIdxF r.extId ≠ some j) :
    (records.foldl (upsertStep sk url eIdxF) acc).rows[j]? = acc.rows[j]? := by
  induction records generalizing acc with
  | nil => rfl
  | cons r rs ih =>
      rw [List.foldl_cons, ih _ (fun x hx => h x (List.mem_cons_of_mem r hx))]
      exact upsertStep_untouched sk url eIdxF acc r j (h r (List.mem_cons_self r rs))

theorem upsert_fold_rows_cases (sk url : String) (eIdxF : Option Int → Option Nat)
    (records : List FetchRec) (acc : UpsertLoop) (j : Nat) :
    (records.foldl (upsertStep sk url eIdxF) acc).rows[j]? = acc.rows[j]? ∨
      ∃ r ∈ records, truthyId r.extId = true ∧ eIdxF r.extId = some j := by
  by_cases h : ∀ r ∈ records, truthyId r.extId = true → eIdxF r.extId ≠ some j
  · exact Or.inl (upsert_fold_untouched sk url eIdxF records acc j h)
  · right
    push_neg at h
    obtain ⟨r, hr, ht, he⟩ := h
    exact ⟨r, hr, ht, he⟩

theorem upsert_fold_toInsert_mem (sk url : String) (eIdxF : Option Int → Option Nat)
    (records : List FetchRec) (acc : UpsertLoop) (row : Row)
    (h : row ∈ (records.foldl (upsertStep sk url eIdxF) acc).toInsert) :
    row ∈ acc.toInsert ∨ ∃ r ∈ records, row = mkIns sk url r := by
  induction records generalizing acc with
  | nil => exact Or.inl h
  | cons r rs ih =>
      rw [List.foldl_cons] at h
      rcases ih (upsertStep sk url eIdxF acc r) h with hin | ⟨r', hr', hrow⟩
      · have hstep : (upsertStep sk url eIdxF acc r).toInsert = acc.toInsert ∨
            (upsertStep sk url eIdxF acc r).toInsert = acc.toInsert ++ [mkIns sk url r] := by
          by_cases ht : truthyId r.extId = true
          · cases he : eIdxF r.extId with
            | none => rw [upsertStep_insert sk url eIdxF acc r (Or.inr he)]; right; rfl
            | some j0 =>
                cases hrow0 : acc.rows[j0]? with
                | none =>
                    rw [upsertStep_found_none sk url eIdxF acc r j0 ht he hrow0]
                    left; rfl
                | some row0 =>
                    rw [upsertStep_found sk url eIdxF acc r j0 row0 ht he hrow0]
                    by_cases hc : row0.checksum == r.checksum
                    · rw [if_pos hc]; left; rfl
                    · rw [if_neg hc]; left; rfl
          · rw [upsertStep_insert sk url eIdxF acc r (Or.inl (Bool.eq_false_iff.mpr ht))]
            right; rfl
        rcases hstep with hstep | hstep
        · rw [hstep] at hin
          exact Or.inl hin
        · rw [hstep, List.mem_append] at hin
          rcases hin with hin | hin
          · exact Or.inl hin
          · right
            exact ⟨r, List.mem_cons_self r rs, List.mem_singleton.mp hin⟩
      · exact Or.inr ⟨r', List.mem_cons_of_mem r hr', hrow⟩

theorem upsert_fold_toInsert_filter (sk url : String) (eIdxF : Option Int → Option Nat)
    (records : List FetchRec) (acc : UpsertLoop) (e : Option Int)
    (h : ∀ r ∈ records, r.extId ≠ e) :
    ((records.foldl (upsertStep sk url eIdxF) acc).toInsert).filter
        (fun row => row.ext_id == e) =
      acc.toInsert.filter (fun row => row.ext_id == e) := by
  induction records generalizing acc with
  | nil => rfl
  | cons r rs ih =>
      rw [List.foldl_cons, ih _ (fun x hx => h x (List.mem_cons_of_mem r hx))]
      have hne : ((mkIns sk url r).ext_id == e) = false := by
        have := h r (List.mem_cons_self r rs)
        simp [mkIns, this]
      by_cases ht : truthyId r.extId = true
      · cases he : eIdxF r.extId with
        | none =>
            rw [upsertStep_insert sk url eIdxF acc r (Or.inr he)]
            show (acc.toInsert ++ [mkIns sk url r]).filter _ = _
            rw [List.filter_append]
            simp [hne]
        | some j0 =>
            cases hrow0 : acc.rows[j0]? with
            | none => rw [upsertStep_found_none sk url eIdxF acc r j0 ht he hrow0]
            | some row0 =>
                rw [upsertStep_found sk url eIdxF acc r j0 row0 ht he hrow0]
                by_cases hc : row0.checksum == r.checksum
                · rw [if_pos hc]
                · rw [if_neg hc]
      · rw [upsertStep_insert sk url eIdxF acc r (Or.inl (Bool.eq_false_iff.mpr ht))]
        show (acc.toInsert ++ [mkIns sk url r]).filter _ = _
        rw [List.filter_append]
        simp [hne]

theorem contains_incomingIds (records : List FetchRec) (e : Option Int) :
    (incomingIds records).contains e = true ↔
      ∃ r ∈ records, r.extId = e ∧ truthyId e = true := by
  rw [contains_iff_mem]
  unfold incomingIds
  rw [List.mem_filterMap]
  constructor
  · rintro ⟨r, hr, hf⟩
    cases r with
    | obj i b =>
        have hf' : (if truthyId i = true then some i else none) = some e := hf
        by_cases ht : truthyId i = true
        · rw [if_pos ht] at hf'
          have : i = e := Option.some.inj hf'
          subst this
          exact ⟨.obj i b, hr, rfl, ht⟩
        · rw [if_neg ht] at hf'
          exact absurd hf' (by simp)
    | raw b => exact absurd hf (by simp)
  · rintro ⟨r, hr, hext, ht⟩
    refine ⟨r, hr, ?_⟩
    cases r with
    | obj i b =>
        have : i = e := hext
        subst this
        show (if truthyId i = true then some i else none) = some i
        rw [if_pos ht]
    | raw b =>
        have : none = e := hext
        subst this
        exact absurd ht (by simp [truthyId])

theorem existIdx_some (store : Store) (sk : String) (e : Option Int) (j : Nat)
    (h : existIdx store sk e = some j) :
    ∃ row, store[j]? = some row ∧ row.source_key = sk ∧ row.ext_id = e := by
  obtain ⟨row, hrow, hp⟩ := lastIdxWhere_some _ store j h
  rw [Bool.and_eq_true] at hp
  exact ⟨row, hrow, eq_of_beq hp.1, eq_of_beq hp.2⟩

theorem existIdx_none (store : Store) (sk : String) (e : Option Int)
    (h : existIdx store sk e = none) :
    ∀ row ∈ store, ¬(row.source_key = sk ∧ row.ext_id = e) := by
  intro row hrow hc
  have hthis := (lastIdxWhere_none_iff _ store).mp h row hrow
  have hb : (row.source_key == sk && row.ext_id == e) = true := by
    rw [Bool.and_eq_true]
    exact ⟨beq_iff_eq.mpr hc.1, beq_iff_eq.mpr hc.2⟩
  rw [hb] at hthis
  exact absurd hthis (by simp)

/-! ## Claim C3 — deletions are first-class, but NULL ids survive

The prune uses `DataRecord.external_id.in_(stale)`; in SQL an `IN` list never
matches a NULL column, and a NULL member of the list matches nothing, so a
stored row whose `external_id` is NULL is never deleted, contrary to the
claim's "including rows that have no external id". -/

theorem claim_C3_counterexample :
    upsert_source
      [{ source_key := "posts", source_url := "u", ext_id := none,
         payload := FetchRec.raw "x", checksum := none }] "posts" "u" [] =
      ((0, 0),
       [{ source_key := "posts", source_url := "u", ext_id := none,
          payload := FetchRec.raw "x", checksum := none }]) := by decide

/-- C3 (amended): after `upsert_source`, no row remains under the source key
with a non-null external id that does not occur among the fetched records'
ids (stored rows with such ids are deleted and none is re-inserted); but
every stored row with a NULL external id survives reconciliation untouched —
deletions are first-class only for rows that carry an external id. -/
theorem claim_C3_amended (store : Store) (sk url : String) (records : List FetchRec) :
    (∀ v : Int, (∀ r ∈ records, r.extId ≠ some v) →
       ((upsert_source store sk url records).2.filter
          (fun row => row.source_key == sk && row.ext_id == some v)) = []) ∧
    (∀ row ∈ store, row.source_key = sk → row.ext_id = none →
       row ∈ (upsert_source store sk url records).2) := by
  have hsnd : (upsert_source store sk url records).2 =
      ((upsertLoopRun store sk url records).rows.filter (fun row =>
        !(row.source_key == sk && sqlInMatch row.ext_id (staleKeysOf store sk records)))) ++
      (upsertLoopRun store sk url records).toInsert := rfl
  constructor
  · intro v hv
    rw [hsnd, List.filter_append]
    have hins : ((upsertLoopRun store sk url records).toInsert).filter
        (fun row => row.source_key == sk && row.ext_id == some v) = [] := by
      rw [List.filter_eq_nil_iff]
      intro row hrow
      rcases upsert_fold_toInsert_mem sk url (existIdx store sk) records _ row hrow with
        hin | ⟨r, hr, hrow'⟩
      · exact absurd hin (by simp)
      · subst hrow'
        have : r.extId ≠ some v := hv r hr
        simp [mkIns, this]
    rw [hins, List.append_nil]
    rw [List.filter_filter, List.filter_eq_nil_iff]
    intro row hrow hb
    rw [Bool.and_eq_true] at hb
    obtain ⟨hpred, hkeep⟩ := hb
    rw [Bool.and_eq_true] at hpred
    have hrsk : row.source_key = sk := eq_of_beq hpred.1
    have hrext : row.ext_id = some v := eq_of_beq hpred.2
    -- the row descends from a stored row with the same key and id
    obtain ⟨j, hj⟩ := List.mem_iff_getElem?.mp hrow
    have hskel := upsert_fold_skeleton sk url (existIdx store sk) records
      { rows := store, changed := 0, toInsert := [] } j
    have hskel2 : (store[j]?).map (fun row => (row.source_key, row.ext_id)) =
        some (sk, some v) := by
      have : ((upsertLoopRun store sk url records).rows[j]?).map
          (fun row => (row.source_key, row.ext_id)) = some (sk, some v) := by
        rw [hj]
        simp [hrsk, hrext]
      rw [← this]
      exact hskel.symm
    cases hs : store[j]? with
    | none => rw [hs] at hskel2; exact absurd hskel2 (by simp)
    | some row0 =>
        rw [hs] at hskel2
        have hpair : row0.source_key = sk ∧ row0.ext_id = some v := by
          have := Option.some.inj hskel2
          exact ⟨congrArg Prod.fst this, congrArg Prod.snd this⟩
        have hmem0 : row0 ∈ store := List.getElem?_mem hs
        -- hence `some v` is one of the snapshot keys
        have hkeys : (some v : Option Int) ∈
            ((store.filter (fun row => row.source_key == sk)).map
              (fun row => row.ext_id)).dedup := by
          rw [List.mem_dedup]
          exact List.mem_map.mpr ⟨row0,
            List.mem_filter.mpr ⟨hmem0, beq_iff_eq.mpr hpair.1⟩, hpair.2⟩
        -- surviving the delete forces `some v` to be an incoming id
        have hnotstale : ((staleKeysOf store sk records).contains (some v)) = false := by
          have := hkeep
          rw [hrsk, hrext] at this
          unfold sqlInMatch at this
          simpa using this
        have hincoming : (incomingIds records).contains (some v) = true := by
          by_contra hc
          have hc' : (incomingIds records).contains (some v) = false :=
            Bool.eq_false_iff.mpr hc
          have : (some v : Option Int) ∈ staleKeysOf store sk records := by
            unfold staleKeysOf
            exact List.mem_filter.mpr ⟨hkeys, by rw [hc']; rfl⟩
          rw [(contains_iff_mem _ _).mpr this] at hnotstale
          exact absurd hnotstale (by simp)
        obtain ⟨r, hr, hrext', _⟩ := (contains_incomingIds records (some v)).mp hincoming
        exact absurd hrext' (hv r hr)
  · intro row hrow hsk hext
    obtain ⟨j, hj⟩ := List.mem_iff_getElem?.mp hrow
    have huntouched : (upsertLoopRun store sk url records).rows[j]? = store[j]? := by
      apply upsert_fold_untouched
      intro r hr ht he
      obtain ⟨row', hrow', _, hext'⟩ := existIdx_some store sk r.extId j he
      have : row' = row := Option.some.inj (hrow' ▸ hj ▸ rfl)
      rw [this, hext] at hext'
      rw [← hext'] at ht
      exact absurd ht (by simp [truthyId])
    have hmem : row ∈ (upsertLoopRun store sk url records).rows :=
      List.getElem?_mem (huntouched.trans hj)
    rw [hsnd]
    apply List.mem_append_left
    apply List.mem_filter.mpr
    refine ⟨hmem, ?_⟩
    rw [hext]
    unfold sqlInMatch
    simp

theorem claim_C3_witness :
    (∀ r ∈ [FetchRec.obj (some 1) "t"], FetchRec.extId r ≠ some 2) ∧
    ((upsert_source
        [{ source_key := "posts", source_url := "u", ext_id := some 2,
           payload := FetchRec.obj (some 2) "B",
           checksum := (FetchRec.obj (some 2) "B").checksum }]
        "posts" "u" [FetchRec.obj (some 1) "t"]).2.filter
        (fun row => row.source_key == "posts" && row.ext_id == some 2)) = [] ∧
    ({ source_key := "posts", source_url := "u", ext_id := none,
       payload := FetchRec.raw "x", checksum := none } : Row) ∈
      (upsert_source
        [{ source_key := "posts", source_url := "u", ext_id := none,
           payload := FetchRec.raw "x", checksum := none }]
        "posts" "u" [FetchRec.obj (some 1) "t"]).2 :=
  ⟨by decide,
   (claim_C3_amended
      [{ source_key := "posts", source_url := "u", ext_id := some 2,
         payload := FetchRec.obj (some 2) "B",
         checksum := (FetchRec.obj (some 2) "B").checksum }]
      "posts" "u" [FetchRec.obj (some 1) "t"]).1 2 (by decide),
   (claim_C3_amended
      [{ source_key := "posts", source_url := "u", ext_id := none,
         payload := FetchRec.raw "x", checksum := none }]
      "posts" "u" [FetchRec.obj (some 1) "t"]).2 _ (by decide) rfl rfl⟩

theorem claim_C10_witness :
    rget { entries := [("k", PyVal.pyval "V", 10)], now := 0,
           available := true, pool := true } "k" = some (PyVal.pyval "V") :=
  (claim_C10_amended
    { entries := [("k", PyVal.pyval "V", 10)], now := 0, available := true, pool := true }
    "k" (PyVal.pyval "V") true rfl).1 rfl

/-! ## Lemmas about the orchestrator loop (`refresh_data`) -/

theorem refresh_foldl_errors (tb : String) (outs : List Outcome) (acc : RefreshAcc) :
    (outs.foldl (refreshStep tb) acc).errors =
      acc.errors ++ (outs.filter (fun o => errTruthy o.error)).map
        (fun o => o.source_key ++ ": " ++ o.error.getD "") := by
  induction outs generalizing acc with
  | nil => simp
  | cons o os ih =>
      rw [List.foldl_cons, ih]
      by_cases he : errTruthy o.error = true
      · simp [refreshStep, he, List.filter_cons]
      · simp [refreshStep, he, List.filter_cons, Bool.eq_false_iff.mpr he]

theorem refresh_foldl_audits (tb : String) (outs : List Outcome) (acc : RefreshAcc) :
    ((outs.foldl (refreshStep tb) acc).audits).map (fun a => (a.source_key, a.status)) =
      acc.audits.map (fun a => (a.source_key, a.status)) ++
        outs.map (fun o => (o.source_key, if errTruthy o.error then "error" else "ok")) := by
  induction outs generalizing acc with
  | nil => simp
  | cons o os ih =>
      rw [List.foldl_cons, ih]
      by_cases he : errTruthy o.error = true
      · simp [refreshStep, he]
      · simp [refreshStep, he]

theorem refresh_foldl_db (tb : String) (outs : List Outcome) (acc : RefreshAcc) :
    (outs.foldl (refreshStep tb) acc).db =
      (outs.filter (fun o => !(errTruthy o.error))).foldl
        (fun s o => (upsert_source s o.source_key o.url o.records).2) acc.db := by
  induction outs generalizing acc with
  | nil => simp
  | cons o os ih =>
      rw [List.foldl_cons, ih]
      by_cases he : errTruthy o.error = true
      · simp only [List.filter_cons, he, Bool.not_true, Bool.false_eq_true, if_false]
        have hdb : (refreshStep tb acc o).db = acc.db := by
          unfold refreshStep
          rw [if_pos he]
        rw [hdb]
      · have he' : errTruthy o.error = false := Bool.eq_false_iff.mpr he
        simp only [List.filter_cons, he', Bool.not_false, if_true, List.foldl_cons]
        have hdb : (refreshStep tb acc o).db =
            (upsert_source acc.db o.source_key o.url o.records).2 := by
          unfold refreshStep
          rw [if_neg (by rw [he']; simp)]
        rw [hdb]

theorem errTruthy_eq_not_none (e : Option String) (h : e ≠ some "") :
    errTruthy e = !(e == none) := by
  cases e with
  | none => rfl
  | some s =>
      have hs : s ≠ "" := fun hc => h (by rw [hc])
      simp [errTruthy, hs]

/-! ## Claim C1 — partial failure yields a well-formed summary

`refresh_data` is a total function of the fetch outcomes and the store — the
model-level rendering of "never an unhandled fault".  One outcome whose
`error` field is the empty string would be treated as a success by the
truthiness test `if result["error"]`, so the theorem assumes error
descriptions are not the empty string (the breaker message and `str(exc)` of
the raised exception classes are never empty). -/

theorem claim_C1 (outcomes : List Outcome) (store : Store) (tb : String)
    (h : ∀ o ∈ outcomes, o.error ≠ some "") :
    (refresh_data outcomes store tb).1.sources_refreshed =
      (outcomes.filter (fun o => o.error == none)).length ∧
    (refresh_data outcomes store tb).1.errors.length =
      (outcomes.filter (fun o => !(o.error == none))).length ∧
    ((refresh_data outcomes store tb).2.2).map (fun a => (a.source_key, a.status)) =
      outcomes.map (fun o => (o.source_key, if o.error == none then "ok" else "error")) ∧
    (refresh_data outcomes store tb).2.1 =
      (outcomes.filter (fun o => o.error == none)).foldl
        (fun s o => (upsert_source s o.source_key o.url o.records).2) store := by
  have hnot : ∀ o ∈ outcomes, (!(errTruthy o.error)) = (o.error == none) := by
    intro o ho
    rw [errTruthy_eq_not_none o.error (h o ho), Bool.not_not]
  refine ⟨?_, ?_, ?_, ?_⟩
  · show (outcomes.filter (fun o => !(errTruthy o.error))).length = _
    rw [List.filter_congr hnot]
  · show (outcomes.foldl (refreshStep tb)
      { db := store, total_upserted := 0, total_changed := 0,
        errors := [], audits := [] }).errors.length = _
    rw [refresh_foldl_errors]
    simp only [List.nil_append, List.length_map]
    congr 1
    apply List.filter_congr
    intro o ho
    rw [errTruthy_eq_not_none o.error (h o ho)]
  · show ((outcomes.foldl (refreshStep tb)
      { db := store, total_upserted := 0, total_changed := 0,
        errors := [], audits := [] }).audits).map _ = _
    rw [refresh_foldl_audits]
    simp only [List.map_nil, List.nil_append]
    apply List.map_congr_left
    intro o ho
    rw [errTruthy_eq_not_none o.error (h o ho)]
    cases hn : (o.error == none) with
    | true => rfl
    | false => rfl
  · show (outcomes.foldl (refreshStep tb)
      { db := store, total_upserted := 0, total_changed := 0,
        errors := [], audits := [] }).db = _
    rw [refresh_foldl_db]
    show (outcomes.filter _).foldl _ store = _
    congr 1
    exact List.filter_congr hnot

theorem claim_C1_witness :
    (∀ o ∈ threeSourceBatch, Outcome.error o ≠ some "") ∧
    ((refresh_data threeSourceBatch [] "manual").1.sources_refreshed =
      (threeSourceBatch.filter (fun o => o.error == none)).length) ∧
    (refresh_data threeSourceBatch [] "manual").1.sources_refreshed = 2 ∧
    (refresh_data threeSourceBatch [] "manual").1.errors.length = 1 :=
  ⟨by decide, (claim_C1 threeSourceBatch [] "manual" (by decide)).1, by decide, by decide⟩

/-! ## Claim C6 — the fetch executor's outcome discipline -/

theorem guardedFetch_url (up : Upstream) (now : Nat) (c : Circuit) (url : String) :
    (guardedFetch up now c url).1.url = url := by
  unfold guardedFetch
  by_cases h : (is_open c url now).1 = true
  · rw [if_pos h]
  · rw [if_neg h]
    cases hu : up url with
    | ok v =>
        obtain ⟨records, ms⟩ := v
        rfl
    | error e => rfl

theorem guardedFetch_error_records (up : Upstream) (now : Nat) (c : Circuit) (url : String) :
    (guardedFetch up now c url).1.error.isSome = true →
      (guardedFetch up now c url).1.records = [] := by
  unfold guardedFetch
  by_cases h : (is_open c url now).1 = true
  · rw [if_pos h]
    intro
    rfl
  · rw [if_neg h]
    cases hu : up url with
    | ok v =>
        obtain ⟨records, ms⟩ := v
        intro hc
        exact absurd hc (by simp)
    | error e =>
        intro
        rfl

theorem fetch_foldl_urls (up : Upstream) (now : Nat) (urls : List String)
    (acc : List Outcome × Circuit × Nat) :
    ((urls.foldl (fetchStep up now) acc).1).map (fun o => o.url) =
      acc.1.map (fun o => o.url) ++ urls := by
  induction urls generalizing acc with
  | nil => simp
  | cons u us ih =>
      rw [List.foldl_cons, ih]
      show ((acc.1 ++ [(guardedFetch up now acc.2.1 u).1]).map _) ++ us = _
      rw [List.map_append]
      simp [guardedFetch_url]

theorem fetch_foldl_mem (up : Upstream) (now : Nat) (urls : List String)
    (acc : List Outcome × Circuit × Nat) (P : Outcome → Prop)
    (hacc : ∀ o ∈ acc.1, P o)
    (hg : ∀ (c : Circuit) (url : String), P (guardedFetch up now c url).1) :
    ∀ o ∈ (urls.foldl (fetchStep up now) acc).1, P o := by
  induction urls generalizing acc with
  | nil => exact hacc
  | cons u us ih =>
      rw [List.foldl_cons]
      apply ih
      intro o ho
      rcases List.mem_append.mp ho with ho | ho
      · exact hacc o ho
      · rw [List.mem_singleton.mp ho]
        exact hg acc.2.1 u

/-- C6: `fetch_sources` yields exactly one outcome per URL, in input order,
and never raises (it is a total function of the upstream behaviour); any
outcome carrying an error has `records = []`; and a source whose breaker
reports open short-circuits to the circuit-open error outcome with zero
duration and no network call. -/
theorem claim_C6 (up : Upstream) (now : Nat) (c : Circuit) (urls : List String) :
    ((fetch_sources up now c urls).1).map (fun o => o.url) = urls ∧
    (∀ o ∈ (fetch_sources up now c urls).1, o.error.isSome = true → o.records = []) ∧
    (∀ (url' : String) (c' : Circuit), (is_open c' url' now).1 = true →
      guardedFetch up now c' url' =
        ({ url := url', source_key := sourceKeyOf url', records := [],
           duration_ms := 0, error := some "Circuit open — upstream unavailable" },
         (is_open c' url' now).2, 0)) := by
  refine ⟨?_, ?_, ?_⟩
  · show ((urls.foldl (fetchStep up now) ([], c, 0)).1).map (fun o => o.url) = urls
    rw [fetch_foldl_urls]
    rfl
  · exact fetch_foldl_mem up now urls ([], c, 0) _ (by intro o ho; cases ho)
      (fun c' url' => guardedFetch_error_records up now c' url')
  · intro url' c' h
    unfold guardedFetch
    rw [if_pos h]

theorem claim_C6_witness :
    ((fetch_sources (fun _ => Except.ok ([], 0)) 0 []
        ["https://x/posts", "https://x/users"]).1).map (fun o => o.url) =
      ["https://x/posts", "https://x/users"] ∧
    guardedFetch (fun _ => Except.ok ([], 0)) 0 [("u", ⟨3, 0⟩)] "u" =
      ({ url := "u", source_key := sourceKeyOf "u", records := [], duration_ms := 0,
         error := some "Circuit open — upstream unavailable" },
       (is_open [("u", ⟨3, 0⟩)] "u" 0).2, 0) :=
  ⟨(claim_C6 (fun _ => Except.ok ([], 0)) 0 [] ["https://x/posts", "https://x/users"]).1,
   (claim_C6 (fun _ => Except.ok ([], 0)) 0 [] []).2.2 "u" [("u", ⟨3, 0⟩)] (by decide)⟩

/-! ## Claim C7 — idempotence of the refresh pipeline

The development below characterises the store `upsert_source` leaves behind
for a well-behaved payload (`GoodRecs`), shows a second identical upsert is
the identity, and lifts this through the orchestrator loop. -/

theorem existIdx_inj (store : Store) (sk : String) (e e' : Option Int) (j : Nat)
    (he : existIdx store sk e = some j) (he' : existIdx store sk e' = some j) :
    e = e' := by
  obtain ⟨row, hrow, _, hext⟩ := existIdx_some store sk e j he
  obtain ⟨row', hrow', _, hext'⟩ := existIdx_some store sk e' j he'
  have : row = row' := Option.some.inj (hrow ▸ hrow')
  rw [← hext, this, hext']

theorem upsert_aux (store : Store) (sk url : String) (suf : List FetchRec)
    (acc : UpsertLoop)
    (h1 : ∀ r ∈ suf, truthyId r.extId = true)
    (h2 : (suf.map FetchRec.extId).Nodup)
    (hF : ∀ r ∈ suf, ∀ j, existIdx store sk r.extId = some j → acc.rows[j]? = store[j]?)
    (hT : ∀ r ∈ suf, acc.toInsert.filter (fun row => row.ext_id == r.extId) = []) :
    ∀ r ∈ suf,
      (∀ j, existIdx store sk r.extId = some j →
         ((suf.foldl (upsertStep sk url (existIdx store sk)) acc).rows[j]?).map Row.checksum =
           some r.checksum) ∧
      (existIdx store sk r.extId = none →
         ((suf.foldl (upsertStep sk url (existIdx store sk)) acc).toInsert).filter
             (fun row => row.ext_id == r.extId) = [mkIns sk url r]) ∧
      (∀ j, existIdx store sk r.extId = some j →
         ((suf.foldl (upsertStep sk url (existIdx store sk)) acc).toInsert).filter
             (fun row => row.ext_id == r.extId) = []) := by
  induction suf generalizing acc with
  | nil => intro r hr; cases hr
  | cons r0 sufT ih =>
      have ht0 : truthyId r0.extId = true := h1 r0 (List.mem_cons_self r0 sufT)
      have hnotin : r0.extId ∉ sufT.map FetchRec.extId := by
        have := List.nodup_cons.mp h2
        exact this.1
      have hextne : ∀ r' ∈ sufT, r'.extId ≠ r0.extId := by
        intro r' hr' hc
        exact hnotin (hc ▸ List.mem_map.mpr ⟨r', hr', rfl⟩)
      -- the one-step accumulator
      have hstep :
          (∃ j0 row, existIdx store sk r0.extId = some j0 ∧ acc.rows[j0]? = some row ∧
             row.checksum = r0.checksum ∧
             upsertStep sk url (existIdx store sk) acc r0 = acc) ∨
          (∃ j0 row, existIdx store sk r0.extId = some j0 ∧ acc.rows[j0]? = some row ∧
             row.checksum ≠ r0.checksum ∧
             upsertStep sk url (existIdx store sk) acc r0 =
               { acc with
                 rows := acc.rows.set j0 { row with payload := r0, checksum := r0.checksum },
                 changed := acc.changed + 1 }) ∨
          (existIdx store sk r0.extId = none ∧
             upsertStep sk url (existIdx store sk) acc r0 =
               { acc with
                 toInsert := acc.toInsert ++ [mkIns sk url r0],
                 changed := acc.changed + 1 }) := by
        cases he0 : existIdx store sk r0.extId with
        | none =>
            exact Or.inr (Or.inr ⟨rfl,
              upsertStep_insert sk url (existIdx store sk) acc r0 (Or.inr he0)⟩)
        | some j0 =>
            cases haccrow : acc.rows[j0]? with
            | none =>
                obtain ⟨row0, hrow0, _, _⟩ := existIdx_some store sk r0.extId j0 he0
                rw [hF r0 (List.mem_cons_self r0 sufT) j0 he0, hrow0] at haccrow
                exact absurd haccrow (by simp)
            | some row =>
                by_cases hc : row.checksum == r0.checksum
                · refine Or.inl ⟨j0, row, rfl, haccrow, eq_of_beq hc, ?_⟩
                  rw [upsertStep_found sk url (existIdx store sk) acc r0 j0 row ht0 he0 haccrow,
                    if_pos hc]
                · refine Or.inr (Or.inl ⟨j0, row, rfl, haccrow,
                    fun hq => hc (beq_iff_eq.mpr hq), ?_⟩)
                  rw [upsertStep_found sk url (existIdx store sk) acc r0 j0 row ht0 he0 haccrow,
                    if_neg hc]
      intro r hr
      rcases List.mem_cons.mp hr with hr0 | hrT
      · -- the head record itself
        subst hr0
        rw [List.foldl_cons]
        rcases hstep with ⟨j0, row, he0, hrow, hcks, heq⟩ | ⟨j0, row, he0, hrow, hcks, heq⟩ | ⟨he0, heq⟩
        · -- checksum already equal: position j0 unchanged for the rest of the fold
          rw [heq]
          refine ⟨?_, ?_, ?_⟩
          · intro j hej
            have hjj : j = j0 := Option.some.inj (hej ▸ he0)
            rw [hjj]
            have hkeep : (sufT.foldl (upsertStep sk url (existIdx store sk)) acc).rows[j0]? =
                acc.rows[j0]? := by
              apply upsert_fold_untouched
              intro r' hr' ht' he'
              exact hextne r' hr' (existIdx_inj store sk r'.extId r.extId j0 he' he0)
            rw [hkeep, hrow]
            show some row.checksum = some r.checksum
            rw [hcks]
          · intro hnone
            rw [hnone] at he0
            cases he0
          · intro j hej
            rw [upsert_fold_toInsert_filter sk url (existIdx store sk) sufT acc r.extId
              (hextne)]
            exact hT r (List.mem_cons_self r sufT)
        · -- updated in place: the set cell survives the rest of the fold
          rw [heq]
          refine ⟨?_, ?_, ?_⟩
          · intro j hej
            have hjj : j = j0 := Option.some.inj (hej ▸ he0)
            rw [hjj]
            have huntouch : (sufT.foldl (upsertStep sk url (existIdx store sk))
                { acc with
                  rows := acc.rows.set j0 { row with payload := r, checksum := r.checksum },
                  changed := acc.changed + 1 }).rows[j0]? =
                (acc.rows.set j0 { row with payload := r, checksum := r.checksum })[j0]? := by
              apply upsert_fold_untouched
              intro r' hr' ht' he'
              exact hextne r' hr' (existIdx_inj store sk r'.extId r.extId j0 he' he0)
            rw [huntouch]
            have hlt : j0 < acc.rows.length := (List.getElem?_eq_some_iff.mp hrow).1
            rw [List.getElem?_set_self hlt]
            rfl
          · intro hnone
            rw [hnone] at he0
            cases he0
          · intro j hej
            rw [upsert_fold_toInsert_filter sk url (existIdx store sk) sufT _ r.extId
              (hextne)]
            exact hT r (List.mem_cons_self r sufT)
        · -- inserted: the single pending row survives the rest of the fold
          rw [heq]
          refine ⟨?_, ?_, ?_⟩
          · intro j hej
            rw [hej] at he0
            cases he0
          · intro _
            rw [upsert_fold_toInsert_filter sk url (existIdx store sk) sufT _ r.extId
              (hextne)]
            show (acc.toInsert ++ [mkIns sk url r]).filter _ = _
            rw [List.filter_append, hT r (List.mem_cons_self r sufT)]
            simp [mkIns]
          · intro j hej
            rw [hej] at he0
            cases he0
      · -- a later record: push the induction hypothesis through one step
        rw [List.foldl_cons]
        rcases hstep with ⟨j0, row, he0, hrow, hcks, heq⟩ | ⟨j0, row, he0, hrow, hcks, heq⟩ | ⟨he0, heq⟩
        · rw [heq]
          exact ih acc
            (fun x hx => h1 x (List.mem_cons_of_mem r0 hx))
            (List.nodup_cons.mp h2).2
            (fun x hx j hj => hF x (List.mem_cons_of_mem r0 hx) j hj)
            (fun x hx => hT x (List.mem_cons_of_mem r0 hx)) r hrT
        · rw [heq]
          apply ih
          · exact fun x hx => h1 x (List.mem_cons_of_mem r0 hx)
          · exact (List.nodup_cons.mp h2).2
          · intro x hx j hj
            show (acc.rows.set j0 _)[j]? = store[j]?
            have hj0 : j0 ≠ j := by
              intro hc
              subst hc
              exact hextne x hx (existIdx_inj store sk x.extId r0.extId j0 hj he0)
            rw [List.getElem?_set_ne hj0]
            exact hF x (List.mem_cons_of_mem r0 hx) j hj
          · exact fun x hx => hT x (List.mem_cons_of_mem r0 hx)
          · exact hrT
        · rw [heq]
          apply ih
          · exact fun x hx => h1 x (List.mem_cons_of_mem r0 hx)
          · exact (List.nodup_cons.mp h2).2
          · exact fun x hx j hj => hF x (List.mem_cons_of_mem r0 hx) j hj
          · intro x hx
            show (acc.toInsert ++ [mkIns sk url r0]).filter _ = _
            rw [List.filter_append, hT x (List.mem_cons_of_mem r0 hx)]
            have hne2 : ((mkIns sk url r0).ext_id == x.extId) = false := by
              have hxr := hextne x hx
              simp [mkIns]
              intro hc
              exact (hxr hc.symm).elim
            simp [hne2]
          · exact hrT

theorem lastIdxWhere_cons_some {α : Type} (p : α → Bool) (a : α) (as : List α) (j : Nat)
    (h : lastIdxWhere p as = some j) : lastIdxWhere p (a :: as) = some (j + 1) := by
  unfold lastIdxWhere
  rw [h]

theorem lastIdxWhere_cons_none {α : Type} (p : α → Bool) (a : α) (as : List α)
    (h : lastIdxWhere p as = none) :
    lastIdxWhere p (a :: as) = if p a then some 0 else none := by
  unfold lastIdxWhere
  rw [h]

theorem lastIdxWhere_proj_eq {α β : Type} (proj : α → β) (q : β → Bool) :
    ∀ (l l' : List α), (∀ j : Nat, (l[j]?).map proj = (l'[j]?).map proj) →
      lastIdxWhere (fun a => q (proj a)) l = lastIdxWhere (fun a => q (proj a)) l' := by
  intro l
  induction l with
  | nil =>
      intro l' h
      cases l' with
      | nil => rfl
      | cons a' as' =>
          have := h 0
          simp at this
  | cons a as ih =>
      intro l' h
      cases l' with
      | nil =>
          have := h 0
          simp at this
      | cons a' as' =>
          have hpa : proj a = proj a' := by
            have h0 := h 0
            simpa using h0
          have htail : ∀ j : Nat, (as[j]?).map proj = (as'[j]?).map proj := by
            intro j
            have := h (j + 1)
            simpa [List.getElem?_cons_succ] using this
          have hih := ih as' htail
          cases hrec : lastIdxWhere (fun x => q (proj x)) as with
          | some j =>
              rw [lastIdxWhere_cons_some _ _ _ _ hrec,
                lastIdxWhere_cons_some _ _ _ _ (by rw [← hih]; exact hrec)]
          | none =>
              rw [lastIdxWhere_cons_none _ _ _ hrec,
                lastIdxWhere_cons_none _ _ _ (by rw [← hih]; exact hrec)]
              show (if q (proj a) then some 0 else none) = (if q (proj a') then some 0 else none)
              rw [hpa]

theorem stale_not_contains (s : Store) (sk : String) (records : List FetchRec) (v : Int)
    (h : (incomingIds records).contains (some v) = true) :
    (staleKeysOf s sk records).contains (some v) = false := by
  cases hcs : (staleKeysOf s sk records).contains (some v) with
  | false => rfl
  | true =>
      have hmem := (contains_iff_mem _ _).mp hcs
      unfold staleKeysOf at hmem
      have h2 := (List.mem_filter.mp hmem).2
      rw [h] at h2
      exact absurd h2 (by simp)

theorem survives_incoming (store : Store) (sk url : String) (records : List FetchRec)
    (row : Row) (hmem : row ∈ (upsertLoopRun store sk url records).rows)
    (v : Int) (hsk : row.source_key = sk) (hv : row.ext_id = some v)
    (hkeep : (!(row.source_key == sk &&
        sqlInMatch row.ext_id (staleKeysOf store sk records))) = true) :
    (incomingIds records).contains (some v) = true := by
  obtain ⟨j, hj⟩ := List.mem_iff_getElem?.mp hmem
  have hskel := upsert_fold_skeleton sk url (existIdx store sk) records
    { rows := store, changed := 0, toInsert := [] } j
  have hskel2 : (store[j]?).map (fun row => (row.source_key, row.ext_id)) =
      some (sk, some v) := by
    have hL : ((upsertLoopRun store sk url records).rows[j]?).map
        (fun row => (row.source_key, row.ext_id)) = some (sk, some v) := by
      rw [hj]
      simp [hsk, hv]
    rw [← hL]
    exact hskel.symm
  cases hs0 : store[j]? with
  | none => rw [hs0] at hskel2; exact absurd hskel2 (by simp)
  | some row0 =>
      rw [hs0] at hskel2
      have hpair := Option.some.inj hskel2
      have hkeys : (some v : Option Int) ∈
          ((store.filter (fun r0 => r0.source_key == sk)).map (fun r0 => r0.ext_id)).dedup := by
        rw [List.mem_dedup]
        exact List.mem_map.mpr ⟨row0,
          List.mem_filter.mpr ⟨List.getElem?_mem hs0,
            beq_iff_eq.mpr (congrArg Prod.fst hpair)⟩, congrArg Prod.snd hpair⟩
      have hnotstale : ((staleKeysOf store sk records).contains (some v)) = false := by
        have hk := hkeep
        rw [hsk, hv] at hk
        unfold sqlInMatch at hk
        simpa using hk
      by_contra hc
      have hc' : (incomingIds records).contains (some v) = false := Bool.eq_false_iff.mpr hc
      have hmem2 : (some v : Option Int) ∈ staleKeysOf store sk records := by
        unfold staleKeysOf
        exact List.mem_filter.mpr ⟨hkeys, by rw [hc']; rfl⟩
      rw [(contains_iff_mem _ _).mpr hmem2] at hnotstale
      exact absurd hnotstale (by simp)

theorem upsert_synced_fixed (s : Store) (sk url : String) (records : List FetchRec)
    (hg : GoodRecs records) (hs : SyncedSrc s sk records) :
    upsert_source s sk url records = ((records.length, 0), s) := by
  have hloop : upsertLoopRun s sk url records =
      { rows := s, changed := 0, toInsert := [] } := by
    show records.foldl (upsertStep sk url (existIdx s sk))
      { rows := s, changed := 0, toInsert := [] } = _
    apply foldl_id
    intro r hr
    have ht := hg.1 r hr
    have hP1 := hs.1 r hr
    cases he : existIdx s sk r.extId with
    | none =>
        exfalso
        have hnil : s.filter (fun row => row.source_key == sk && row.ext_id == r.extId) = [] := by
          rw [List.filter_eq_nil_iff]
          intro a ha
          rw [(lastIdxWhere_none_iff _ s).mp he a ha]
          simp
        rw [hnil] at hP1
        exact absurd hP1 (by simp)
    | some j =>
        obtain ⟨row, hrow, _, _⟩ := existIdx_some s sk r.extId j he
        have hlast := lastIdxWhere_getLast _ s j row he hrow
        rw [hlast] at hP1
        have hcks : row.checksum = r.checksum := Option.some.inj hP1
        rw [upsertStep_found sk url (existIdx s sk) _ r j row ht he hrow,
          if_pos (beq_iff_eq.mpr hcks)]
  have hdelete : s.filter (fun row =>
      !(row.source_key == sk && sqlInMatch row.ext_id (staleKeysOf s sk records))) = s := by
    rw [List.filter_eq_self]
    intro row hrow
    by_cases hsk2 : row.source_key = sk
    · cases hext : row.ext_id with
      | none => simp [sqlInMatch, hext]
      | some v =>
          have hco := hs.2 row hrow hsk2 v hext
          have hstale := stale_not_contains s sk records v hco
          have hsm2 : sqlInMatch (some v) (staleKeysOf s sk records) = false := hstale
          simp [hsm2]
    · have hb : (row.source_key == sk) = false := by
        simp only [beq_eq_false_iff_ne, ne_eq]
        exact hsk2
      simp [hb]
  show ((records.length, (upsertLoopRun s sk url records).changed),
    ((upsertLoopRun s sk url records).rows.filter (fun row =>
      !(row.source_key == sk && sqlInMatch row.ext_id (staleKeysOf s sk records)))) ++
    (upsertLoopRun s sk url records).toInsert) = ((records.length, 0), s)
  rw [hloop]
  show ((records.length, 0), s.filter _ ++ []) = ((records.length, 0), s)
  rw [List.append_nil, hdelete]

theorem upsert_synced_est (s : Store) (sk url : String) (records : List FetchRec)
    (hg : GoodRecs records) :
    SyncedSrc ((upsert_source s sk url records).2) sk records := by
  have hsnd : (upsert_source s sk url records).2 =
      ((upsertLoopRun s sk url records).rows.filter (fun row =>
        !(row.source_key == sk && sqlInMatch row.ext_id (staleKeysOf s sk records)))) ++
      (upsertLoopRun s sk url records).toInsert := rfl
  constructor
  · -- every fetched record's last stored row carries its checksum
    intro r hr
    have ht := hg.1 r hr
    have haux := upsert_aux s sk url records { rows := s, changed := 0, toInsert := [] }
      hg.1 hg.2 (fun _ _ _ _ => rfl) (fun _ _ => rfl) r hr
    have haux1 : ∀ j : Nat, existIdx s sk r.extId = some j →
        ((upsertLoopRun s sk url records).rows[j]?).map Row.checksum = some r.checksum :=
      haux.1
    have haux2 : existIdx s sk r.extId = none →
        ((upsertLoopRun s sk url records).toInsert).filter
          (fun row => row.ext_id == r.extId) = [mkIns sk url r] :=
      haux.2.1
    have haux3 : ∀ j : Nat, existIdx s sk r.extId = some j →
        ((upsertLoopRun s sk url records).toInsert).filter
          (fun row => row.ext_id == r.extId) = [] :=
      haux.2.2
    obtain ⟨i, hi⟩ : ∃ i : Int, r.extId = some i := by
      cases hre : r.extId with
      | none => rw [hre] at ht; exact absurd ht (by simp [truthyId])
      | some i => exact ⟨i, rfl⟩
    have hinc : (incomingIds records).contains (some i) = true :=
      (contains_incomingIds records (some i)).mpr ⟨r, hr, hi, hi ▸ ht⟩
    have hAD : (((upsertLoopRun s sk url records).rows.filter (fun row =>
        !(row.source_key == sk && sqlInMatch row.ext_id (staleKeysOf s sk records)))).filter
          (fun row => row.source_key == sk && row.ext_id == r.extId)) =
        (upsertLoopRun s sk url records).rows.filter
          (fun row => row.source_key == sk && row.ext_id == r.extId) := by
      rw [List.filter_filter]
      apply List.filter_congr
      intro row hrow
      cases hp : (row.source_key == sk && row.ext_id == r.extId) with
      | false => simp
      | true =>
          rw [Bool.and_eq_true] at hp
          have hext2 : row.ext_id = some i := hi ▸ eq_of_beq hp.2
          have hsm : sqlInMatch row.ext_id (staleKeysOf s sk records) = false := by
            rw [hext2]
            exact stale_not_contains s sk records i hinc
          simp [hsm]
    rw [hsnd, List.filter_append, hAD]
    cases he : existIdx s sk r.extId with
    | some j =>
        -- the record hit an existing row: nothing was inserted for its id
        have hTI := haux3 j he
        have hTIpred : ((upsertLoopRun s sk url records).toInsert).filter
            (fun row => row.source_key == sk && row.ext_id == r.extId) = [] := by
          rw [List.filter_eq_nil_iff] at hTI ⊢
          intro a ha hc
          rw [Bool.and_eq_true] at hc
          exact hTI a ha hc.2
        rw [hTIpred, List.append_nil]
        have hskel : ∀ j' : Nat, (((upsertLoopRun s sk url records).rows[j']?).map
            (fun row => (row.source_key, row.ext_id))) =
            ((s[j']?).map (fun row => (row.source_key, row.ext_id))) :=
          fun j' => upsert_fold_skeleton sk url (existIdx s sk) records
            { rows := s, changed := 0, toInsert := [] } j'
        have hlw : lastIdxWhere (fun row => row.source_key == sk && row.ext_id == r.extId)
            (upsertLoopRun s sk url records).rows = some j := by
          have := lastIdxWhere_proj_eq (fun row : Row => (row.source_key, row.ext_id))
            (fun pr => pr.1 == sk && pr.2 == r.extId)
            (upsertLoopRun s sk url records).rows s hskel
          rw [this]
          exact he
        have hval := haux1 j he
        cases hcell : (upsertLoopRun s sk url records).rows[j]? with
        | none => rw [hcell] at hval; exact absurd hval (by simp)
        | some rowF =>
            have hlast := lastIdxWhere_getLast _ _ j rowF hlw hcell
            rw [hlast]
            rw [hcell] at hval
            exact hval
    | none =>
        -- the record was inserted: its pending row is the single match
        have hTI := haux2 he
        have hADnil : (upsertLoopRun s sk url records).rows.filter
            (fun row => row.source_key == sk && row.ext_id == r.extId) = [] := by
          rw [List.filter_eq_nil_iff]
          intro row hrow hc
          rw [Bool.and_eq_true] at hc
          obtain ⟨j', hj'⟩ := List.mem_iff_getElem?.mp hrow
          have hskel3 : ((upsertLoopRun s sk url records).rows[j']?).map
              (fun row => (row.source_key, row.ext_id)) =
              ((s[j']?).map (fun row => (row.source_key, row.ext_id))) :=
            upsert_fold_skeleton sk url (existIdx s sk) records
              { rows := s, changed := 0, toInsert := [] } j'
          rw [hj'] at hskel3
          cases hs0 : s[j']? with
          | none => rw [hs0] at hskel3; exact absurd hskel3 (by simp)
          | some row0 =>
              rw [hs0] at hskel3
              have hpair := Option.some.inj hskel3
              have hpair1 : row0.source_key = row.source_key := (congrArg Prod.fst hpair).symm
              have hpair2 : row0.ext_id = row.ext_id := (congrArg Prod.snd hpair).symm
              have he' : lastIdxWhere
                  (fun row : Row => row.source_key == sk && row.ext_id == r.extId) s = none := he
              have hnone := (lastIdxWhere_none_iff
                (fun row : Row => row.source_key == sk && row.ext_id == r.extId) s).mp he' row0
                (List.getElem?_mem hs0)
              have hb : (row0.source_key == sk && row0.ext_id == r.extId) = true := by
                rw [Bool.and_eq_true]
                exact ⟨by rw [hpair1]; exact hc.1, by rw [hpair2]; exact hc.2⟩
              rw [hb] at hnone
              exact absurd hnone (by simp)
        have hTIpred : ((upsertLoopRun s sk url records).toInsert).filter
            (fun row => row.source_key == sk && row.ext_id == r.extId) =
            [mkIns sk url r] := by
          have hcg : ((upsertLoopRun s sk url records).toInsert).filter
              (fun row => row.source_key == sk && row.ext_id == r.extId) =
              ((upsertLoopRun s sk url records).toInsert).filter
                (fun row => row.ext_id == r.extId) := by
            apply List.filter_congr
            intro row hrow
            rcases upsert_fold_toInsert_mem sk url (existIdx s sk) records _ row hrow with
              hin | ⟨r', hr', hrow'⟩
            · exact absurd hin (by simp)
            · subst hrow'
              show ((mkIns sk url r').source_key == sk && _) = _
              simp [mkIns]
          rw [hcg, hTI]
        rw [hADnil, hTIpred]
        show ([mkIns sk url r].getLast?).map Row.checksum = some r.checksum
        rfl
  · -- every surviving row with a non-null id is covered by the incoming ids
    intro row hmem hsk2 v hv
    rw [hsnd] at hmem
    rcases List.mem_append.mp hmem with hmem | hmem
    · have h1 := List.mem_filter.mp hmem
      exact survives_incoming s sk url records row h1.1 v hsk2 hv h1.2
    · rcases upsert_fold_toInsert_mem sk url (existIdx s sk) records _ row hmem with
        hin | ⟨r', hr', hrow'⟩
      · exact absurd hin (by simp)
      · subst hrow'
        have hext' : r'.extId = some v := hv
        exact (contains_incomingIds records (some v)).mpr
          ⟨r', hr', hext', hext' ▸ hg.1 r' hr'⟩

theorem filter_eq_of_pointwise {α : Type} (p : α → Bool) :
    ∀ (l l' : List α), l.length = l'.length →
      (∀ j : Nat, l[j]? = l'[j]? ∨
        (∃ a a', l[j]? = some a ∧ l'[j]? = some a' ∧ p a = false ∧ p a' = false)) →
      l.filter p = l'.filter p := by
  intro l
  induction l with
  | nil =>
      intro l' hlen h
      cases l' with
      | nil => rfl
      | cons a' as' => simp at hlen
  | cons a as ih =>
      intro l' hlen h
      cases l' with
      | nil => simp at hlen
      | cons a' as' =>
          have hlen' : as.length = as'.length := by simpa using hlen
          have htail : ∀ j : Nat, as[j]? = as'[j]? ∨
              (∃ b b', as[j]? = some b ∧ as'[j]? = some b' ∧ p b = false ∧ p b' = false) := by
            intro j
            have := h (j + 1)
            simpa [List.getElem?_cons_succ] using this
          rcases h 0 with h0 | ⟨b, b', hb, hb', hpb, hpb'⟩
          · have haa : a = a' := by simpa using h0
            subst haa
            rw [List.filter_cons, List.filter_cons, ih as' hlen' htail]
          · have hba : b = a := by
              have : some a = some b := by simpa using hb
              exact (Option.some.inj this).symm
            have hba' : b' = a' := by
              have : some a' = some b' := by simpa using hb'
              exact (Option.some.inj this).symm
            subst hba
            subst hba'
            rw [List.filter_cons, List.filter_cons, hpb, hpb', ih as' hlen' htail]
            rfl

theorem upsert_other_filter (s : Store) (sk sk' url : String) (records : List FetchRec)
    (hne : sk ≠ sk') (p : Option Int → Bool) :
    ((upsert_source s sk' url records).2).filter
        (fun row => row.source_key == sk && p row.ext_id) =
      s.filter (fun row => row.source_key == sk && p row.ext_id) := by
  have hsnd : (upsert_source s sk' url records).2 =
      ((upsertLoopRun s sk' url records).rows.filter (fun row =>
        !(row.source_key == sk' && sqlInMatch row.ext_id (staleKeysOf s sk' records)))) ++
      (upsertLoopRun s sk' url records).toInsert := rfl
  have hskne : ∀ row : Row, row.source_key = sk' → (row.source_key == sk) = false := by
    intro row h
    rw [h]
    simp only [beq_eq_false_iff_ne, ne_eq]
    exact fun hc => hne hc.symm
  rw [hsnd, List.filter_append]
  have hTI : ((upsertLoopRun s sk' url records).toInsert).filter
      (fun row => row.source_key == sk && p row.ext_id) = [] := by
    rw [List.filter_eq_nil_iff]
    intro row hrow hc
    rcases upsert_fold_toInsert_mem sk' url (existIdx s sk') records _ row hrow with
      hin | ⟨r', _, hrow'⟩
    · exact absurd hin (by simp)
    · rw [Bool.and_eq_true] at hc
      have : row.source_key = sk' := by rw [hrow']; rfl
      rw [hskne row this] at hc
      exact absurd hc.1 (by simp)
  rw [hTI, List.append_nil, List.filter_filter]
  have hcongr : (upsertLoopRun s sk' url records).rows.filter
      (fun row => (row.source_key == sk && p row.ext_id) &&
        !(row.source_key == sk' && sqlInMatch row.ext_id (staleKeysOf s sk' records))) =
      (upsertLoopRun s sk' url records).rows.filter
        (fun row => row.source_key == sk && p row.ext_id) := by
    apply List.filter_congr
    intro row _
    cases hq : (row.source_key == sk && p row.ext_id) with
    | false => simp
    | true =>
        rw [Bool.and_eq_true] at hq
        have hrsk : row.source_key = sk := eq_of_beq hq.1
        have : (row.source_key == sk') = false := by
          rw [hrsk]
          simp only [beq_eq_false_iff_ne, ne_eq]
          exact hne
        simp [this, hq.1, hq.2]
  rw [hcongr]
  apply filter_eq_of_pointwise _ _ _ (upsert_fold_length sk' url (existIdx s sk') records _)
  intro j
  rcases upsert_fold_rows_cases sk' url (existIdx s sk') records
    { rows := s, changed := 0, toInsert := [] } j with hsame | ⟨r, _, _, her⟩
  · left
    exact hsame
  · obtain ⟨row0, hrow0, hsk0, _⟩ := existIdx_some s sk' r.extId j her
    have hskel : (((upsertLoopRun s sk' url records).rows[j]?).map
        (fun row => (row.source_key, row.ext_id))) =
        ((s[j]?).map (fun row => (row.source_key, row.ext_id))) :=
      upsert_fold_skeleton sk' url (existIdx s sk') records
        { rows := s, changed := 0, toInsert := [] } j
    rw [hrow0] at hskel
    cases hcell : (upsertLoopRun s sk' url records).rows[j]? with
    | none => rw [hcell] at hskel; exact absurd hskel (by simp)
    | some rowF =>
        rw [hcell] at hskel
        have hpair := Option.some.inj hskel
        have hskF : rowF.source_key = sk' := by
          have h1 : rowF.source_key = row0.source_key := congrArg Prod.fst hpair
          rw [h1]
          exact hsk0
        right
        refine ⟨rowF, row0, hcell, hrow0, ?_, ?_⟩
        · rw [hskne rowF hskF]
          rfl
        · rw [hskne row0 hsk0]
          rfl

theorem synced_preserved (s : Store) (sk sk' url' : String)
    (records records' : List FetchRec)
    (hne : sk ≠ sk') (hs : SyncedSrc s sk records) :
    SyncedSrc ((upsert_source s sk' url' records').2) sk records := by
  constructor
  · intro r hr
    have hfe : ((upsert_source s sk' url' records').2).filter
        (fun row => row.source_key == sk && row.ext_id == r.extId) =
        s.filter (fun row => row.source_key == sk && row.ext_id == r.extId) :=
      upsert_other_filter s sk sk' url' records' hne (fun x => x == r.extId)
    rw [hfe]
    exact hs.1 r hr
  · intro row hmem hsk2 v hv
    have hfe : ((upsert_source s sk' url' records').2).filter
        (fun row => row.source_key == sk && true) =
        s.filter (fun row => row.source_key == sk && true) :=
      upsert_other_filter s sk sk' url' records' hne (fun _ => true)
    have hmem2 : row ∈ ((upsert_source s sk' url' records').2).filter
        (fun row => row.source_key == sk && true) :=
      List.mem_filter.mpr ⟨hmem, by simp [hsk2]⟩
    rw [hfe] at hmem2
    exact hs.2 row (List.mem_filter.mp hmem2).1 hsk2 v hv

theorem synced_pres_fold (sk : String) (records : List FetchRec) :
    ∀ (l : List Outcome) (s : Store), SyncedSrc s sk records →
      (∀ o ∈ l, o.source_key ≠ sk) →
      SyncedSrc (l.foldl (fun st o => (upsert_source st o.source_key o.url o.records).2) s)
        sk records := by
  intro l
  induction l with
  | nil =>
      intro s hs _
      exact hs
  | cons o os ih =>
      intro s hs hne
      rw [List.foldl_cons]
      apply ih
      · exact synced_preserved s sk o.source_key o.url records o.records
          (fun hc => (hne o (List.mem_cons_self o os)) hc.symm) hs
      · exact fun o' ho' => hne o' (List.mem_cons_of_mem o ho')

theorem synced_foldAll :
    ∀ (l : List Outcome) (s : Store),
      (∀ o ∈ l, GoodRecs o.records) →
      ((l.map (fun o => o.source_key)).Nodup) →
      ∀ o ∈ l,
        SyncedSrc (l.foldl (fun st o => (upsert_source st o.source_key o.url o.records).2) s)
          o.source_key o.records := by
  intro l
  induction l with
  | nil =>
      intro s _ _ o ho
      cases ho
  | cons o0 os ih =>
      intro s hg hnd o ho
      have hndc : (o0.source_key :: (os.map (fun o => o.source_key))).Nodup := hnd
      have hnd2 := List.nodup_cons.mp hndc
      rw [List.foldl_cons]
      rcases List.mem_cons.mp ho with rfl | hoT
      · apply synced_pres_fold o.source_key o.records os _
        · exact upsert_synced_est s o.source_key o.url o.records
            (hg o (List.mem_cons_self o os))
        · intro o' ho' hc
          exact hnd2.1 (hc ▸ List.mem_map.mpr ⟨o', ho', rfl⟩)
      · exact ih _ (fun x hx => hg x (List.mem_cons_of_mem o0 hx)) hnd2.2 o hoT

theorem refresh_changed_zero (tb : String) :
    ∀ (outs : List Outcome) (acc : RefreshAcc),
      (∀ o ∈ outs, errTruthy o.error = false →
        upsert_source acc.db o.source_key o.url o.records = ((o.records.length, 0), acc.db)) →
      (outs.foldl (refreshStep tb) acc).total_changed = acc.total_changed ∧
      (outs.foldl (refreshStep tb) acc).db = acc.db := by
  intro outs
  induction outs with
  | nil =>
      intro acc _
      exact ⟨rfl, rfl⟩
  | cons o os ih =>
      intro acc h
      rw [List.foldl_cons]
      by_cases he : errTruthy o.error = true
      · have hdb : (refreshStep tb acc o).db = acc.db := by
          unfold refreshStep
          rw [if_pos he]
        have htc : (refreshStep tb acc o).total_changed = acc.total_changed := by
          unfold refreshStep
          rw [if_pos he]
        have hrest := ih (refreshStep tb acc o) (by
          intro o' ho' he'
          rw [hdb]
          exact h o' (List.mem_cons_of_mem o ho') he')
        exact ⟨hrest.1.trans htc, hrest.2.trans hdb⟩
      · have he' : errTruthy o.error = false := Bool.eq_false_iff.mpr he
        have hu := h o (List.mem_cons_self o os) he'
        have hdb : (refreshStep tb acc o).db = acc.db := by
          unfold refreshStep
          rw [if_neg (by rw [he']; simp)]
          show (upsert_source acc.db o.source_key o.url o.records).2 = acc.db
          rw [hu]
        have htc : (refreshStep tb acc o).total_changed = acc.total_changed := by
          unfold refreshStep
          rw [if_neg (by rw [he']; simp)]
          show acc.total_changed + (upsert_source acc.db o.source_key o.url o.records).1.2 =
            acc.total_changed
          rw [hu]
          exact Nat.add_zero acc.total_changed
        have hrest := ih (refreshStep tb acc o) (by
          intro o' ho' he2
          rw [hdb]
          exact h o' (List.mem_cons_of_mem o ho') he2)
        exact ⟨hrest.1.trans htc, hrest.2.trans hdb⟩

theorem claim_C7_counterexample :
    ¬((refresh_data [⟨"u", "s", [FetchRec.raw "x"], 5, none⟩]
        ((refresh_data [⟨"u", "s", [FetchRec.raw "x"], 5, none⟩] [] "manual").2.1)
        "manual").1.records_changed = 0) := by decide

/-- C7 (amended): running the orchestrator twice over the same outcome batch
yields `records_changed = 0` on the second run, provided every successful
outcome's records all carry a truthy external id with no duplicate ids within
a response, and the successful outcomes' source keys are pairwise distinct.
(The counterexample shows the unrestricted claim fails: a record without an
external id is re-inserted on every run, so the second run reports a
change.) -/
theorem claim_C7_amended (outcomes : List Outcome) (store : Store) (tb tb' : String)
    (hgood : ∀ o ∈ outcomes, errTruthy o.error = false → GoodRecs o.records)
    (hsk : ((outcomes.filter (fun o => !(errTruthy o.error))).map
      (fun o => o.source_key)).Nodup) :
    (refresh_data outcomes ((refresh_data outcomes store tb).2.1) tb').1.records_changed
      = 0 := by
  have hdb1 : (refresh_data outcomes store tb).2.1 =
      (outcomes.filter (fun o => !(errTruthy o.error))).foldl
        (fun st o => (upsert_source st o.source_key o.url o.records).2) store := by
    show (outcomes.foldl (refreshStep tb)
      { db := store, total_upserted := 0, total_changed := 0,
        errors := [], audits := [] }).db = _
    rw [refresh_foldl_db]
  have hgood' : ∀ o ∈ outcomes.filter (fun o => !(errTruthy o.error)), GoodRecs o.records := by
    intro o ho
    have hm := List.mem_filter.mp ho
    exact hgood o hm.1 (by
      have := hm.2
      cases he : errTruthy o.error with
      | false => rfl
      | true => rw [he] at this; exact absurd this (by simp))
  have hsynced := synced_foldAll (outcomes.filter (fun o => !(errTruthy o.error))) store
    hgood' hsk
  show (outcomes.foldl (refreshStep tb')
    { db := (refresh_data outcomes store tb).2.1, total_upserted := 0, total_changed := 0,
      errors := [], audits := [] }).total_changed = 0
  have hz := refresh_changed_zero tb' outcomes
    { db := (refresh_data outcomes store tb).2.1, total_upserted := 0, total_changed := 0,
      errors := [], audits := [] } (by
    intro o ho he
    show upsert_source ((refresh_data outcomes store tb).2.1) o.source_key o.url o.records =
      ((o.records.length, 0), (refresh_data outcomes store tb).2.1)
    have hmemf : o ∈ outcomes.filter (fun o => !(errTruthy o.error)) :=
      List.mem_filter.mpr ⟨ho, by rw [he]; rfl⟩
    have hsy := hsynced o hmemf
    rw [← hdb1] at hsy
    rw [upsert_synced_fixed ((refresh_data outcomes store tb).2.1) o.source_key o.url
      o.records (hgood o ho he) hsy])
  exact hz.1

theorem claim_C7_witness :
    (∀ o ∈ [oneGoodOutcome], errTruthy o.error = false → GoodRecs o.records) ∧
    (([oneGoodOutcome].filter (fun o => !(errTruthy o.error))).map
      (fun o => o.source_key)).Nodup ∧
    (refresh_data [oneGoodOutcome]
      ((refresh_data [oneGoodOutcome] [] "manual").2.1) "scheduler").1.records_changed = 0 :=
  ⟨by decide, by decide,
   claim_C7_amended [oneGoodOutcome] [] "manual" "scheduler" (by decide) (by decide)⟩

end RTA
